import Mathlib

/-!
Verification of the Lineup Generation & Diversification Engine of the
Betting-Block DFS optimizer repository.

The development shallowly embeds the relevant parts of the source:

* `src/nfl_stacks.py` — the `SleekOptimizer` integer-program builder and its
  sequential generation loop (`optimize`), the exposure gate, the team-stack
  rule and the context bookkeeping.  The external ILP solver (`pulp`) is
  abstracted: a solve is any assignment of the binary per-player variables
  satisfying the constraint set the code builds, and infeasibility is the
  absence of such an assignment.  All theorems about "produced lineups"
  quantify over every feasible assignment, which covers whatever optimum the
  solver returns.
* `src/div_lineup.py` — the wide-format diversification pass
  (`diversify_lineups_wide`) with its exposure/pair Counters.
* `src/nfl.py` — the narrow diversification pass (`diversify_lineups`).

Machine floats of the source are modelled as rationals; Python `Counter`
values (ints that the code explicitly clamps with `max(0, ...)`) are modelled
as `Int`.  Randomness (`random.sample`, `random.random`, `random.shuffle`) is
modelled by an explicit oracle supplying one draw per call site.
-/

namespace DFS

/-- The `Player` dataclass of `src/nfl_stacks.py`. -/
structure Player where
  id : String
  full_name : String
  positions : List String
  team : String
  salary : ℚ
  fppg : ℚ
  opponent : Option String := none
  game_id : Option String := none
  max_exposure : Option ℚ := none
  min_exposure : Option ℚ := none
  projected_ownership : Option ℚ := none
  injured : Bool := false
deriving DecidableEq, Repr

/-- The fields of `Settings` that `SleekOptimizer.optimize` reads. -/
structure Settings where
  budget : ℚ
  positions : List (String × Nat)
  total_players : Nat
  max_from_team : Option Nat := none
deriving DecidableEq, Repr

/-- A solved assignment of the binary variables is the list of ids set to 1;
the lineup the code extracts is the corresponding rows of the pool. -/
def selectedPlayers (df : List Player) (chosen : List String) : List Player :=
  df.filter (fun p => chosen.contains p.id)

/-- `SleekOptimizer.exposure_strategy`
(`lambda used, total, max_exp: used / total <= (max_exp or 1.0)`).
`max_exp or 1.0` is Python truthiness: a max exposure of `0.0` is replaced by
`1.0`. -/
def exposureStrategy (used total : Nat) (maxExp : ℚ) : Bool :=
  decide ((used : ℚ) / (total : ℚ) ≤ (if maxExp = 0 then 1 else maxExp))

/-- The `context` dict threaded through the generation loop:
`{'lineups_generated': …, 'player_uses': {id: count}}`. -/
structure GenContext where
  lineups_generated : Nat
  player_uses : List (String × Nat)
deriving DecidableEq, Repr

/-- `context = {'lineups_generated': 0, 'player_uses': {p.id: 0 for p in df}}`. -/
def initContext (df : List Player) : GenContext :=
  { lineups_generated := 0, player_uses := df.map (fun p => (p.id, 0)) }

/-- `context['player_uses'].get(id, 0)`. -/
def usesOf (ctx : GenContext) (id : String) : Nat :=
  (ctx.player_uses.lookup id).getD 0

/-- `for p in selected_players: context['player_uses'][p.id] += 1`
(the selected players carry pairwise distinct ids, one per binary variable). -/
def bumpUses (uses : List (String × Nat)) (ids : List String) : List (String × Nat) :=
  uses.map (fun e => if ids.contains e.1 then (e.1, e.2 + 1) else e)

/-- The end-of-iteration context update of `optimize`:
`context['lineups_generated'] += 1` and a usage bump per selected player. -/
def updateContext (ctx : GenContext) (sel : List Player) : GenContext :=
  { lineups_generated := ctx.lineups_generated + 1,
    player_uses := bumpUses ctx.player_uses (sel.map (·.id)) }

/-- The per-solve exposure gate of `optimize` (lines 268–272): a player with a
max-exposure attribute is forced to zero exactly when
`exposure_strategy(used, lineups_generated + 1, max_exposure)` is false. -/
def forcedOut (ctx : GenContext) (p : Player) : Bool :=
  match p.max_exposure with
  | none => false
  | some m => ! exposureStrategy (usesOf ctx p.id) (ctx.lineups_generated + 1) m

/-- The `prob += player_vars[row.id] == 0` constraints added by the exposure
gate: a forced player cannot be selected. -/
def exposureConstraints (df : List Player) (ctx : GenContext) (chosen : List String) : Prop :=
  ∀ p ∈ df, forcedOut ctx p = true → chosen.contains p.id = false

instance (df : List Player) (ctx : GenContext) (chosen : List String) :
    Decidable (exposureConstraints df ctx chosen) := by
  unfold exposureConstraints
  exact inferInstance

/-- Position filter of `_team_stack_rule`: with `for_positions` given, keep
players whose position list meets it (`any(p in for_positions for p in ps)`). -/
def teamStackMatch (forPositions : Option (List String)) (p : Player) : Bool :=
  match forPositions with
  | none => true
  | some fps => p.positions.any (fun q => fps.contains q)

/-- `SleekOptimizer._team_stack_rule`: for EVERY team appearing in the pool,
the (optionally position-filtered) selected count from that team is ≥ `size`. -/
def teamStackConstraints (df : List Player) (size : Nat)
    (forPositions : Option (List String)) (chosen : List String) : Prop :=
  ∀ t ∈ (df.map (·.team)).dedup,
    size ≤ (df.filter (fun p => p.team = t && teamStackMatch forPositions p)).countP
      (fun p => chosen.contains p.id)

instance (df : List Player) (size : Nat) (forPositions : Option (List String))
    (chosen : List String) : Decidable (teamStackConstraints df size forPositions chosen) := by
  unfold teamStackConstraints
  exact inferInstance

/-- The `if self.settings.max_from_team:` per-team cap block of `optimize`
(skipped under Python truthiness when `max_from_team` is `None` or `0`). -/
def teamCapConstraint (settings : Settings) (df : List Player) (chosen : List String) : Prop :=
  match settings.max_from_team with
  | some m => m ≠ 0 →
      ∀ t ∈ (df.map (·.team)).dedup,
        (df.filter (fun p => p.team = t)).countP (fun p => chosen.contains p.id) ≤ m
  | none => True

instance (settings : Settings) (df : List Player) (chosen : List String) :
    Decidable (teamCapConstraint settings df chosen) := by
  unfold teamCapConstraint
  rcases settings.max_from_team with _ | m
  · exact inferInstance
  · exact inferInstance

/-- The constraint set `optimize` builds for one solve (lines 252–272):
total-player count over the distinct binary variables, budget, exact
per-position counts, the per-team cap, and the exposure-gate fixings. -/
def baseConstraints (settings : Settings) (df : List Player) (ctx : GenContext)
    (chosen : List String) : Prop :=
  ((df.map (·.id)).dedup.countP (fun i => chosen.contains i)) = settings.total_players
  ∧ (df.map (fun p => if chosen.contains p.id then p.salary else 0)).sum ≤ settings.budget
  ∧ (∀ pc ∈ settings.positions,
      (df.filter (fun p => p.positions.contains pc.1)).countP
        (fun p => chosen.contains p.id) = pc.2)
  ∧ teamCapConstraint settings df chosen
  ∧ exposureConstraints df ctx chosen

instance (settings : Settings) (df : List Player) (ctx : GenContext)
    (chosen : List String) : Decidable (baseConstraints settings df ctx chosen) := by
  unfold baseConstraints exposureConstraints
  exact inferInstance

/-- The message of the `ValueError` raised when a solve is infeasible. -/
def infeasibleMsg : String := "Infeasible solution; check constraints."

/-- The generation loop of `optimize` observed through `list(...)`: each
iteration performs one solve; an infeasible solve raises `ValueError`, which
aborts the whole generation and loses every lineup produced so far; otherwise
the lineup is yielded and the context updated. -/
def optimizeRun (solver : GenContext → Option (List Player)) :
    GenContext → Nat → Except String (List (List Player))
  | _, 0 => .ok []
  | ctx, n + 1 =>
    match solver ctx with
    | none => .error infeasibleMsg
    | some sel =>
      match optimizeRun solver (updateContext ctx sel) n with
      | .ok rest => .ok (sel :: rest)
      | .error e => .error e

/-- `optimizeRun` instrumented with the number of solve attempts actually
made before returning. -/
def optimizeRunCount (solver : GenContext → Option (List Player)) :
    GenContext → Nat → Except String (List (List Player)) × Nat
  | _, 0 => (.ok [], 0)
  | ctx, n + 1 =>
    match solver ctx with
    | none => (.error infeasibleMsg, 1)
    | some sel =>
      let r := optimizeRunCount solver (updateContext ctx sel) n
      (match r.1 with
       | .ok rest => .ok (sel :: rest)
       | .error e => .error e, r.2 + 1)

/-- Executable feasibility check for a candidate id set, combining the base
constraints with the active (already compiled) stacking rules. -/
def feasibleChk (settings : Settings) (df : List Player)
    (rules : List (List String → Bool)) (ctx : GenContext) (chosen : List String) : Bool :=
  decide (baseConstraints settings df ctx chosen) && rules.all (fun r => r chosen)

/-- A sound reference solver: return some feasible assignment when one exists
(the objective is abstracted — every theorem below about produced lineups
holds for all feasible assignments, hence for the pulp optimum). -/
def solveFirst (settings : Settings) (df : List Player)
    (rules : List (List String → Bool)) (ctx : GenContext) : Option (List Player) :=
  (((df.map (·.id)).dedup.sublists).find? (fun ids => feasibleChk settings df rules ctx ids)).map
    (fun ids => selectedPlayers df ids)

/-- Entry of `optimize` (lines 243–245): `df` is the injury-filtered view — an
ALIAS of `players_df` when `with_injured` is true, a pandas copy otherwise —
and with `randomness` the column write `df['fppg'] = df['fppg'] * (1 + u)`
perturbs that view in place.  Returns the working frame together with the
state of `self.players_df` after the call. -/
def optimizeEntry (playersDf : List Player) (withInjured randomness : Bool)
    (jitter : Nat → ℚ) : List Player × List Player :=
  let base := if withInjured then playersDf else playersDf.filter (fun p => ! p.injured)
  let working :=
    if randomness then
      (base.enum.map (fun pi => { pi.2 with fppg := pi.2.fppg * (1 + jitter pi.1) }))
    else base
  (working, if randomness && withInjured then working else playersDf)

/-! ### General list lemmas used to relate the per-row linear constraints to
properties of the extracted lineup. -/

theorem sum_map_ite {α : Type} (q : α → Bool) (f : α → ℚ) (l : List α) :
    (l.map (fun a => if q a then f a else 0)).sum = ((l.filter q).map f).sum := by
  induction l with
  | nil => rfl
  | cons a l ih =>
    by_cases h : q a <;> simp [List.filter_cons, h, ih]

theorem countP_filter_swap {α : Type} (l : List α) (a b : α → Bool) :
    (l.filter a).countP b = (l.filter b).countP a := by
  rw [List.countP_filter, List.countP_filter]
  congr 1
  funext x
  exact Bool.and_comm _ _

theorem lookup_bumpUses (uses : List (String × Nat)) (ids : List String) (id : String) :
    (bumpUses uses ids).lookup id =
      (uses.lookup id).map (fun c => if ids.contains id then c + 1 else c) := by
  induction uses with
  | nil => rfl
  | cons e l ih =>
    rcases e with ⟨k, v⟩
    show ((if ids.contains k = true then (k, v + 1) else (k, v)) :: bumpUses l ids).lookup id = _
    by_cases hc : ids.contains k = true
    · rw [if_pos hc]
      by_cases h : id = k
      · subst h
        have hm : id ∈ ids := by simpa using hc
        simp [List.lookup, hm]
      · have hbeq : (id == k) = false := beq_eq_false_iff_ne.mpr h
        simp only [List.lookup, hbeq]
        exact ih
    · rw [if_neg hc]
      by_cases h : id = k
      · subst h
        have hm : id ∉ ids := by simpa using hc
        simp [List.lookup, hm]
      · have hbeq : (id == k) = false := beq_eq_false_iff_ne.mpr h
        simp only [List.lookup, hbeq]
        exact ih

theorem selectedPlayers_length (settings : Settings) (df : List Player) (ctx : GenContext)
    (chosen : List String) (hnd : (df.map (·.id)).Nodup)
    (hbase : baseConstraints settings df ctx chosen) :
    (selectedPlayers df chosen).length = settings.total_players := by
  have h1 := hbase.1
  rw [List.dedup_eq_self.mpr hnd, List.countP_map] at h1
  rw [selectedPlayers, ← h1, List.countP_eq_length_filter]
  rfl

theorem selectedPlayers_salary (df : List Player) (chosen : List String) :
    ((selectedPlayers df chosen).map (·.salary)).sum =
      (df.map (fun p => if chosen.contains p.id then p.salary else 0)).sum := by
  rw [sum_map_ite]
  rfl

theorem selectedPlayers_countP (df : List Player) (chosen : List String) (b : Player → Bool) :
    (selectedPlayers df chosen).countP b =
      (df.filter b).countP (fun p => chosen.contains p.id) :=
  countP_filter_swap df _ _

theorem selectedPlayers_nodup_ids (df : List Player) (chosen : List String)
    (hnd : (df.map (·.id)).Nodup) : ((selectedPlayers df chosen).map (·.id)).Nodup :=
  List.Nodup.sublist (List.Sublist.map _ (List.filter_sublist df)) hnd

/-! ### Concrete pools used by witnesses and counterexamples. -/

/-- Build a plain player row with the given id, positions, team, salary, fppg. -/
def mkP (id : String) (poss : List String) (team : String) (sal fp : ℚ) : Player :=
  { id := id, full_name := id, positions := poss, team := team, salary := sal, fppg := fp }

def pA : Player := { mkP "a" ["QB"] "AAA" 100 10 with max_exposure := some (mkRat 2 5) }

def pB : Player := mkP "b" ["RB"] "BBB" 100 9

def dfC3 : List Player := [pA, pB]

/-! ### C3 — the exposure gate. -/

theorem exposureStrategy_eq_false {used total : Nat} {m : ℚ} (hm : ¬ m = 0)
    (h : ¬ ((used : ℚ) / (total : ℚ) ≤ m)) : exposureStrategy used total m = false := by
  simp [exposureStrategy, if_neg hm, h]

theorem exposureStrategy_eq_true {used total : Nat} {m : ℚ} (hm : ¬ m = 0)
    (h : (used : ℚ) / (total : ℚ) ≤ m) : exposureStrategy used total m = true := by
  simp [exposureStrategy, if_neg hm, h]

theorem mkRat25_ne_zero : ¬ (mkRat 2 5 : ℚ) = 0 := by
  rw [Rat.mkRat_eq_div]
  norm_num

/-- After the accepted lineup `[pA]` the gate forces `pA` out: 1/2 > 2/5. -/
theorem forced_after_one : forcedOut (updateContext (initContext dfC3) [pA]) pA = true := by
  show (! exposureStrategy 1 2 (mkRat 2 5)) = true
  rw [exposureStrategy_eq_false mkRat25_ne_zero]
  · rfl
  · rw [Rat.mkRat_eq_div]
    norm_num

/-- After the further accepted lineup `[pB]` the gate releases `pA`:
1/3 ≤ 2/5. -/
theorem released_after_two :
    forcedOut (updateContext (updateContext (initContext dfC3) [pA]) [pB]) pA = false := by
  show (! exposureStrategy 1 3 (mkRat 2 5)) = false
  rw [exposureStrategy_eq_true mkRat25_ne_zero]
  · rfl
  · rw [Rat.mkRat_eq_div]
    norm_num

/-- **C3 (amended)**: the exposure gate is re-evaluated before every solve: a
player with a max-exposure attribute is forced to zero exactly when
`usage / (lineups_generated + 1)` exceeds the cap (Python truthiness turns a
cap of 0 into 1).  The gate is not one-way: the second conjunct shows a player
forced out after lineup 1 who is released again after lineup 2, because the
denominator grew while the usage stayed fixed. -/
theorem C3_exposure_gate :
    (∀ (ctx : GenContext) (p : Player) (m : ℚ), p.max_exposure = some m →
      (forcedOut ctx p = true ↔
        ¬ ((usesOf ctx p.id : ℚ) / (((ctx.lineups_generated + 1 : Nat) : ℚ)) ≤
            (if m = 0 then 1 else m)))) ∧
    (forcedOut (updateContext (initContext dfC3) [pA]) pA = true ∧
     forcedOut (updateContext (updateContext (initContext dfC3) [pA]) [pB]) pA = false) := by
  refine ⟨?_, forced_after_one, released_after_two⟩
  intro ctx p m hm
  simp [forcedOut, hm, exposureStrategy]

/-- Witness for C3: the gate characterization applied to the concrete player
`pA` (cap 2/5) in the initial context. -/
theorem C3_exposure_gate_witness :
    forcedOut (initContext dfC3) pA = true ↔
      ¬ ((usesOf (initContext dfC3) pA.id : ℚ) /
          ((((initContext dfC3).lineups_generated + 1 : Nat) : ℚ)) ≤
          (if (mkRat 2 5 : ℚ) = 0 then 1 else mkRat 2 5)) :=
  C3_exposure_gate.1 (initContext dfC3) pA (mkRat 2 5) rfl

/-- **C3 counterexample**: refutes the one-way gate.  After lineup `[pA]` the
player `pA` (cap 2/5) is forced out of solve 2 (ratio 1/2 > 2/5); after the
second accepted lineup `[pB]` (which indeed excludes `pA`) the ratio is
1/3 ≤ 2/5 and `pA` is NOT forced at solve 3 — the cap has been released
mid-batch. -/
theorem C3_counterexample :
    forcedOut (updateContext (initContext dfC3) [pA]) pA = true ∧
    forcedOut (updateContext (updateContext (initContext dfC3) [pA]) [pB]) pA = false ∧
    pA.id ∉ (([pB] : List Player).map (·.id)) := by
  refine ⟨forced_after_one, released_after_two, by decide⟩

/-! ### C6 — infeasibility handling in the generation loop. -/

/-- The context reached before the `k`-th solve when the first `k` solves all
succeed, or `none` if one of them was infeasible. -/
def ctxTrace (solver : GenContext → Option (List Player)) :
    GenContext → Nat → Option GenContext
  | ctx, 0 => some ctx
  | ctx, k + 1 =>
    match solver ctx with
    | none => none
    | some sel => ctxTrace solver (updateContext ctx sel) k

/-- **C6 (amended)**: a single infeasible solve anywhere in the batch makes the
whole generation raise `ValueError("Infeasible solution; check constraints.")`,
discarding every lineup produced before it.  There is no retry and no partial
batch with a shortfall count. -/
theorem C6_infeasible_aborts :
    ∀ (solver : GenContext → Option (List Player)) (ctx : GenContext) (n k : Nat)
      (c : GenContext), k < n → ctxTrace solver ctx k = some c → solver c = none →
      optimizeRun solver ctx n = .error infeasibleMsg := by
  intro solver ctx n k
  induction k generalizing ctx n with
  | zero =>
    intro c hk htr hs
    cases n with
    | zero => omega
    | succ m =>
      simp only [ctxTrace, Option.some.injEq] at htr
      subst htr
      simp [optimizeRun, hs]
  | succ k ih =>
    intro c hk htr hs
    cases n with
    | zero => omega
    | succ m =>
      cases hsel : solver ctx with
      | none => simp [optimizeRun, hsel]
      | some sel =>
        have htr' : ctxTrace solver (updateContext ctx sel) k = some c := by
          simpa [ctxTrace, hsel] using htr
        have herr := ih (updateContext ctx sel) m c (by omega) htr' hs
        simp [optimizeRun, hsel, herr]

def selC6 : List Player := [pB]

/-- A solver that finds a lineup on the first solve and is infeasible on the
second — the code path of `optimize(n=2)` hitting `LpStatusInfeasible`. -/
def solverC6 : GenContext → Option (List Player) :=
  fun ctx => if ctx.lineups_generated = 0 then some selC6 else none

/-- Witness for C6: the abort conclusion at the concrete two-solve run whose
second solve is infeasible (trace position `k = 1` inside `n = 2`). -/
theorem C6_infeasible_aborts_witness :
    optimizeRun solverC6 (initContext dfC3) 2 = .error infeasibleMsg := by
  refine C6_infeasible_aborts solverC6 (initContext dfC3) 2 1
    (updateContext (initContext dfC3) selC6) (by decide) ?_ ?_
  · rfl
  · rfl

/-- **C6 counterexample**: with a feasible first solve and an infeasible
second solve, `optimize(n=2)` does not return the partial batch `[selC6]`
with a shortfall annotation — it raises, losing the batch. -/
theorem C6_counterexample :
    optimizeRun solverC6 (initContext dfC3) 2 = .error infeasibleMsg ∧
    ∀ ls : List (List Player), optimizeRun solverC6 (initContext dfC3) 2 ≠ .ok ls := by
  have h1 : optimizeRun solverC6 (initContext dfC3) 2 = .error infeasibleMsg := by
    simp [optimizeRun, solverC6, updateContext, initContext]
  exact ⟨h1, fun ls h => by rw [h1] at h; exact Except.noConfusion h⟩

/-! ### C7 — what the ledger records after an accepted lineup. -/

/-- The generation-time ledger after a history of accepted lineups. -/
def ctxAfter (df : List Player) (history : List (List Player)) : GenContext :=
  history.foldl updateContext (initContext df)

/-- The pair co-occurrence count the claim says the ledger tracks: the number
of accepted lineups containing both ids. -/
def specPairCount (history : List (List Player)) (a b : String) : Nat :=
  history.countP (fun sel => (sel.map (·.id)).contains a && (sel.map (·.id)).contains b)

/-- **C7 (amended)**: after a lineup is accepted the generation-time ledger
increments `lineups_generated` by one and the usage count of exactly the
included players by one; it maintains no pair co-occurrence counts at all
(see the counterexample). -/
theorem C7_ledger_update :
    ∀ (ctx : GenContext) (sel : List Player),
      (updateContext ctx sel).lineups_generated = ctx.lineups_generated + 1 ∧
      ∀ id, (updateContext ctx sel).player_uses.lookup id =
        (ctx.player_uses.lookup id).map
          (fun c => if (sel.map (·.id)).contains id then c + 1 else c) := by
  intro ctx sel
  exact ⟨rfl, fun id => lookup_bumpUses _ _ _⟩

def pa7 : Player := mkP "a" ["QB"] "AAA" 100 10

def pb7 : Player := mkP "b" ["RB"] "AAA" 100 9

def pc7 : Player := mkP "c" ["WR"] "BBB" 100 8

def pd7 : Player := mkP "d" ["TE"] "BBB" 100 7

def dfC7 : List Player := [pa7, pb7, pc7, pd7]

/-- **C7 counterexample**: two accepted-lineup histories with different pair
co-occurrences (`{a,b},{c,d}` versus `{a,c},{b,d}`) produce identical
generation contexts, so the ledger the loop maintains cannot contain — let
alone increment — any per-pair co-occurrence count. -/
theorem C7_counterexample :
    ctxAfter dfC7 [[pa7, pb7], [pc7, pd7]] = ctxAfter dfC7 [[pa7, pc7], [pb7, pd7]] ∧
    specPairCount [[pa7, pb7], [pc7, pd7]] "a" "b" = 1 ∧
    specPairCount [[pa7, pc7], [pb7, pd7]] "a" "b" = 0 := by
  refine ⟨by decide, by decide, by decide⟩

/-! ### C8 — insufficient pools are not pre-validated. -/

theorem feasibleChk_false_of_short (settings : Settings) (df : List Player)
    (rules : List (List String → Bool)) (ctx : GenContext) (ids : List String)
    (h : df.length < settings.total_players) :
    feasibleChk settings df rules ctx ids = false := by
  have hb : ¬ baseConstraints settings df ctx ids := by
    intro hbase
    have h1 := hbase.1
    have h2 : ((df.map (·.id)).dedup.countP (fun i => ids.contains i)) ≤ df.length := by
      calc ((df.map (·.id)).dedup.countP (fun i => ids.contains i))
          ≤ (df.map (·.id)).dedup.length := List.countP_le_length _
        _ ≤ (df.map (·.id)).length := (List.dedup_sublist _).length_le
        _ = df.length := List.length_map _ _
    omega
  simp [feasibleChk, hb]

theorem solveFirst_eq_none (settings : Settings) (df : List Player)
    (rules : List (List String → Bool)) (ctx : GenContext)
    (h : ∀ ids, feasibleChk settings df rules ctx ids = false) :
    solveFirst settings df rules ctx = none := by
  have hfind : (((df.map (·.id)).dedup.sublists).find?
      (fun ids => feasibleChk settings df rules ctx ids)) = none :=
    List.find?_eq_none.mpr (fun x _ => by simp [h x])
  simp [solveFirst, hfind]

/-- **C8 (amended)**: `optimize` performs no pool validation before solving.
With a pool smaller than the roster size the `lpSum(vars) == total_players`
constraint is unsatisfiable, so the FIRST solve attempt is made and comes back
infeasible, raising the generic `ValueError` — the failure surfaces at, not
before, a solve attempt, and no `ValidationError` exists. -/
theorem C8_no_prevalidation :
    ∀ (settings : Settings) (df : List Player) (rules : List (List String → Bool))
      (ctx : GenContext) (n : Nat), df.length < settings.total_players → 0 < n →
      optimizeRunCount (solveFirst settings df rules) ctx n = (.error infeasibleMsg, 1) := by
  intro settings df rules ctx n hlen hn
  have hnone := solveFirst_eq_none settings df rules ctx
      (fun ids => feasibleChk_false_of_short settings df rules ctx ids hlen)
  cases n with
  | zero => omega
  | succ m => simp [optimizeRunCount, hnone]

def settings9 : Settings :=
  { budget := 50000,
    positions := [("QB", 1), ("RB", 2), ("WR", 3), ("TE", 1), ("FLEX", 1), ("DST", 1)],
    total_players := 9 }

def pool8 : List Player :=
  [mkP "p1" ["QB"] "AAA" 100 10, mkP "p2" ["RB"] "AAA" 100 9,
   mkP "p3" ["RB"] "BBB" 100 8, mkP "p4" ["WR"] "BBB" 100 7,
   mkP "p5" ["WR"] "CCC" 100 6, mkP "p6" ["WR"] "CCC" 100 5,
   mkP "p7" ["TE"] "DDD" 100 4, mkP "p8" ["DST"] "DDD" 100 3]

/-- **C8 counterexample**: a request for 5 lineups over an 8-player pool and
the 9-slot template does not raise any error before solving: exactly one solve
attempt is made (attempt count 1, not 0) and it fails with the infeasibility
`ValueError`, not a `ValidationError`. -/
theorem C8_counterexample :
    optimizeRunCount (solveFirst settings9 pool8 []) (initContext pool8) 5 =
      (.error infeasibleMsg, 1) := by
  have hnone := solveFirst_eq_none settings9 pool8 [] (initContext pool8)
      (fun ids => feasibleChk_false_of_short settings9 pool8 [] (initContext pool8) ids
        (by decide))
  simp [optimizeRunCount, hnone]

/-- Witness for C8: the amended theorem applied to the concrete 8-player pool
with `n = 3`. -/
theorem C8_no_prevalidation_witness :
    optimizeRunCount (solveFirst settings9 pool8 []) (initContext pool8) 3 =
      (.error infeasibleMsg, 1) :=
  C8_no_prevalidation settings9 pool8 [] (initContext pool8) 3 (by decide) (by decide)

/-! ### C9 — mutation of the loaded pool by `optimize`. -/

/-- **C9 (amended)**: the entry of `optimize` leaves `self.players_df`
unchanged whenever `randomness` is false or `with_injured` is false; in the
remaining combination (`randomness=True, with_injured=True`) the fppg jitter
is applied to `df`, which is an alias of `self.players_df`, mutating the
loaded pool in place (see the counterexample). -/
theorem C9_pool_mutation :
    ∀ (pool : List Player) (wi rnd : Bool) (jit : Nat → ℚ),
      rnd = false ∨ wi = false → (optimizeEntry pool wi rnd jit).2 = pool := by
  intro pool wi rnd jit h
  rcases h with h | h <;> subst h <;> simp [optimizeEntry]

def poolC9 : List Player := [mkP "z" ["QB"] "AAA" 100 10]

/-- Witness for C9: with `randomness=False` the pool is returned unchanged. -/
theorem C9_pool_mutation_witness :
    (optimizeEntry poolC9 true false (fun _ => 0)).2 = poolC9 :=
  C9_pool_mutation poolC9 true false (fun _ => 0) (Or.inl rfl)

/-- **C9 counterexample**: with `randomness=True` and `with_injured=True` the
jitter write `df['fppg'] = df['fppg'] * (1 + u)` hits the alias of
`players_df`: a player with fppg 10 and draw u = 1/10 ends at fppg 11, so t­he
loaded pool is NOT left unchanged. -/
theorem C9_counterexample :
    (optimizeEntry poolC9 true true (fun _ => mkRat 1 10)).2 ≠ poolC9 := by
  intro h
  have hf := congrArg (fun l => ((l.headD (mkP "x" [] "" 0 0)).fppg)) h
  simp [optimizeEntry, poolC9, mkP, List.enum] at hf

/-! ### C2 — the TeamStack rule. -/

/-- Executable form of the team-stack constraint, used as a rule in the
reference solver. -/
def teamStackChk (df : List Player) (size : Nat) (fps : Option (List String))
    (chosen : List String) : Bool :=
  decide (teamStackConstraints df size fps chosen)

/-- **C2**: (1) any selection satisfying the compiled TeamStack rule draws at
least `size` (position-filtered) players from some team — the code in fact
requires this for EVERY team of the pool, which implies the claim whenever the
lineup is non-empty; (2) Scenario B: if team A owns exactly 3 pool players in
the QB/WR/TE filter and a selection satisfies `TeamStack(3,[QB,WR,TE])`, then
all 3 of team A's players are selected; (3) when no assignment satisfies the
built constraints, the generation reports infeasibility
(`ValueError("Infeasible solution; check constraints.")`). -/
theorem C2_team_stack :
    (∀ (settings : Settings) (df : List Player) (ctx : GenContext) (chosen : List String)
        (size : Nat) (fps : Option (List String)),
      baseConstraints settings df ctx chosen →
      teamStackConstraints df size fps chosen →
      0 < settings.total_players →
      ∃ t ∈ (df.map (·.team)).dedup,
        size ≤ (df.filter (fun p => p.team = t && teamStackMatch fps p)).countP
          (fun p => chosen.contains p.id))
    ∧
    (∀ (df : List Player) (chosen : List String) (teamA : String) (fps : Option (List String)),
      teamStackConstraints df 3 fps chosen →
      teamA ∈ (df.map (·.team)).dedup →
      (df.filter (fun p => p.team = teamA && teamStackMatch fps p)).length = 3 →
      ∀ p ∈ df.filter (fun p => p.team = teamA && teamStackMatch fps p),
        chosen.contains p.id = true)
    ∧
    (∀ (settings : Settings) (df : List Player) (rules : List (List String → Bool))
        (ctx : GenContext) (n : Nat),
      (∀ ids, feasibleChk settings df rules ctx ids = false) → 0 < n →
      optimizeRun (solveFirst settings df rules) ctx n = .error infeasibleMsg) := by
  refine ⟨?_, ?_, ?_⟩
  · intro settings df ctx chosen size fps hbase hstack htp
    have h1 := hbase.1
    have hpos : 0 < (df.map (·.id)).dedup.countP (fun i => chosen.contains i) := by
      rw [h1]
      exact htp
    obtain ⟨idv, hmem, -⟩ := List.countP_pos_iff.mp hpos
    obtain ⟨p, hp, -⟩ := List.mem_map.mp (List.mem_dedup.mp hmem)
    have ht : p.team ∈ (df.map (·.team)).dedup :=
      List.mem_dedup.mpr (List.mem_map_of_mem _ hp)
    exact ⟨p.team, ht, hstack p.team ht⟩
  · intro df chosen teamA fps hstack hmem hlen
    have h3 := hstack teamA hmem
    have hle := List.countP_le_length (p := fun p => chosen.contains p.id)
      (l := df.filter (fun p => p.team = teamA && teamStackMatch fps p))
    have heq : (df.filter (fun p => p.team = teamA && teamStackMatch fps p)).countP
        (fun p => chosen.contains p.id) =
        (df.filter (fun p => p.team = teamA && teamStackMatch fps p)).length := by
      omega
    exact List.countP_eq_length.mp heq
  · intro settings df rules ctx n h hn
    have hnone := solveFirst_eq_none settings df rules ctx h
    cases n with
    | zero => omega
    | succ m => simp [optimizeRun, hnone]

def poolW : List Player :=
  [mkP "q" ["QB"] "AAA" 100 20, mkP "w1" ["WR"] "AAA" 100 15, mkP "w2" ["WR"] "AAA" 100 14,
   mkP "w3" ["WR"] "BBB" 100 13, mkP "w4" ["WR"] "BBB" 100 12,
   mkP "t1" ["TE"] "BBB" 100 11, mkP "t2" ["TE"] "BBB" 100 10]

def settingsW : Settings :=
  { budget := 700, positions := [("QB", 1), ("WR", 4), ("TE", 2)], total_players := 7 }

def chosenW : List String := ["q", "w1", "w2", "w3", "w4", "t1", "t2"]

def qbwrte : Option (List String) := some ["QB", "WR", "TE"]

def poolB2 : List Player :=
  [mkP "qa" ["QB"] "AAA" 100 20, mkP "wa1" ["WR"] "AAA" 100 15, mkP "wa2" ["WR"] "AAA" 100 14,
   mkP "rb1" ["RB"] "BBB" 100 13, mkP "rb2" ["RB"] "BBB" 100 12]

/-- Witness for C2: part 1 and part 2 applied to a concrete feasible pool and
selection; part 3 applied to a Scenario B pool (team AAA has QB+WR+WR, team
BBB has no QB/WR/TE player at all), where the compiled rule — which demands
three such players from every team — is unsatisfiable, so the run reports the
infeasibility `ValueError`. -/
theorem C2_team_stack_witness :
    (∃ t ∈ (poolW.map (·.team)).dedup,
        3 ≤ (poolW.filter (fun p => p.team = t && teamStackMatch qbwrte p)).countP
          (fun p => chosenW.contains p.id)) ∧
    (∀ p ∈ poolW.filter (fun p => p.team = "AAA" && teamStackMatch qbwrte p),
        chosenW.contains p.id = true) ∧
    optimizeRun (solveFirst settingsW poolB2 [fun ids => teamStackChk poolB2 3 qbwrte ids])
        (initContext poolB2) 4 = .error infeasibleMsg := by
  have hfeas : ∀ ids, feasibleChk settingsW poolB2
      [fun ids => teamStackChk poolB2 3 qbwrte ids] (initContext poolB2) ids = false := by
    intro ids
    have hts : teamStackChk poolB2 3 qbwrte ids = false := by
      unfold teamStackChk
      rw [decide_eq_false_iff_not]
      intro hc
      have hbbb := hc "BBB" (by decide)
      have hlen : (poolB2.filter (fun p => p.team = "BBB" && teamStackMatch qbwrte p)).length
          = 0 := by decide
      have hle := List.countP_le_length (p := fun p => ids.contains p.id)
        (l := poolB2.filter (fun p => p.team = "BBB" && teamStackMatch qbwrte p))
      omega
    simp [feasibleChk, hts]
  refine ⟨?_, ?_, ?_⟩
  · refine C2_team_stack.1 settingsW poolW (initContext poolW) chosenW 3 qbwrte
      ⟨by decide, ?_, by decide, by decide, by decide⟩ (by decide) (by decide)
    show (poolW.map (fun p => if chosenW.contains p.id then p.salary else 0)).sum ≤
      settingsW.budget
    simp +decide [poolW, chosenW, mkP, settingsW]
    norm_num
  · exact C2_team_stack.2.1 poolW chosenW "AAA" qbwrte (by decide) (by decide) (by decide)
  · exact C2_team_stack.2.2 settingsW poolB2 _ (initContext poolB2) 4 hfeas (by decide)

/-! ## The diversification passes.

`src/div_lineup.py` (`diversify_lineups_wide`, the wide-format pass) and
`src/nfl.py` (`diversify_lineups`, the narrow pass).  Python string helpers are
modelled by structurally recursive functions over the character list (ASCII
model of `str.lower`, `str.strip`, the regexes and `sorted`); `Counter` values
are `Int` so that the `max(0, …)` clamps of the source are visible.  The three
uses of randomness (`random.sample`, `random.random`, `random.shuffle`) are an
explicit oracle: one draw per attempted slot supplies both the throttle value
and the shuffle permutation, one draw per lineup supplies the slot order; all
theorems quantify over arbitrary oracles. -/

namespace Div

/-- Python `str.lower()` (ASCII model). -/
def strLower (s : String) : String := String.mk (s.data.map Char.toLower)

/-- Python `str.upper()` (ASCII model). -/
def strUpper (s : String) : String := String.mk (s.data.map Char.toUpper)

/-- Python `str.strip()` on a character list. -/
def trimChars (l : List Char) : List Char :=
  ((l.dropWhile Char.isWhitespace).reverse.dropWhile Char.isWhitespace).reverse

/-- Python `str.strip()`. -/
def strStrip (s : String) : String := String.mk (trimChars s.data)

/-- `re.sub(r'\s+', ' ', ·)` after whitespace was mapped to plain spaces:
collapse runs of spaces. -/
def collapseSpaces : List Char → List Char
  | [] => []
  | [c] => [c]
  | c1 :: c2 :: rest =>
    if c1 = ' ' ∧ c2 = ' ' then collapseSpaces (c2 :: rest)
    else c1 :: collapseSpaces (c2 :: rest)

/-- `normalize_name` of `src/div_lineup.py`: lowercase, drop characters
outside [a-z0-9] and whitespace, collapse whitespace runs, strip. -/
def normalizeName (s : String) : String :=
  let cleaned := (strLower s).data.filter (fun c => c.isLower || c.isDigit || c.isWhitespace)
  strStrip (String.mk (collapseSpaces (cleaned.map (fun c => if c.isWhitespace then ' ' else c))))

/-- Python `cell.split("(")[0]`. -/
def beforeParen (s : String) : String := String.mk (s.data.takeWhile (fun c => c ≠ '('))

/-- `name_key_from_cell` of `src/div_lineup.py`. -/
def nameKeyFromCell (cell : String) : String := normalizeName (strStrip (beforeParen cell))

/-- `name_key` of `src/nfl.py` — same split/strip but no normalization. -/
def nameKeyNfl (cell : String) : String := strStrip (beforeParen cell)

/-- Lexicographic order on code points, Python's string `<`. -/
def charListLt : List Char → List Char → Bool
  | [], [] => false
  | [], _ :: _ => true
  | _ :: _, [] => false
  | a :: as, b :: bs => if a < b then true else if b < a then false else charListLt as bs

def strLt (a b : String) : Bool := charListLt a.data b.data

/-- `tuple(sorted([a, b]))`. -/
def pkey (a b : String) : String × String := if strLt a b then (a, b) else (b, a)

/-- `[tuple(sorted([x, y])) for i < j]` over a list of names. -/
def allPairs : List String → List (String × String)
  | [] => []
  | x :: xs => xs.map (fun y => pkey x y) ++ allPairs xs

/-- One row of the `player_info` dict built by
`build_player_info_from_salary_df` / `build_player_info`. -/
structure PlayerInfo where
  display : String
  pid : Option String
  positions : List String
  team : String
  salary : ℚ
  fppg : ℚ
deriving DecidableEq, Repr

/-- One row of the wide lineup frame: the slot cells plus the stored
`TotalSalary` / `ProjectedPoints` columns. -/
structure Row where
  cells : List (String × String)
  totalSalary : ℚ
  projectedPoints : ℚ
deriving DecidableEq, Repr

/-- `df.at[li, s]` (missing column reads as the empty cell). -/
def getCell (r : Row) (s : String) : String :=
  (r.cells.lookup s).getD ""

/-- `df.at[li, s] = v`. -/
def setCell (r : Row) (s : String) (v : String) : Row :=
  { r with cells := r.cells.map (fun e => if e.1 = s then (e.1, v) else e) }

/-- The column names of a row. -/
def rowCols (r : Row) : List String := r.cells.map Prod.fst

/-- The contribution of one slot to a row's occupant names: skipped when the
cell strips to empty, otherwise its `name_key_from_cell`. -/
def keyAt (r : Row) (c : String) : Option String :=
  if strStrip (getCell r c) = "" then none else some (nameKeyFromCell (getCell r c))

/-- The normalized occupant names of a lineup row: cells that are non-empty
after stripping, keyed by `name_key_from_cell` (lines 200–204 / 291). -/
def rowKeys (slotCols : List String) (r : Row) : List String :=
  slotCols.filterMap (keyAt r)

/-- `Counter.get(k, 0)`. -/
def cnt {α : Type} [BEq α] (l : List (α × Int)) (k : α) : Int :=
  (l.lookup k).getD 0

/-- `counter[k] = v` (inserts the key when absent, as Python does). -/
def setCnt {α : Type} [BEq α] [DecidableEq α] (l : List (α × Int)) (k : α) (v : Int) :
    List (α × Int) :=
  if (l.lookup k).isSome then l.map (fun e => if e.1 = k then (e.1, v) else e)
  else l ++ [(k, v)]

/-- `counter[k] += 1`, used to build the initial `Counter(...)`s. -/
def bumpCnt {α : Type} [BEq α] [DecidableEq α] (l : List (α × Int)) (k : α) : List (α × Int) :=
  setCnt l k (cnt l k + 1)

/-- `Counter(ks)`. -/
def counterOf {α : Type} [BEq α] [DecidableEq α] (ks : List α) : List (α × Int) :=
  ks.foldl bumpCnt []

/-- `for p in ps: counter[p] = max(0, counter.get(p, 0) - 1)`. -/
def decPairs (l : List ((String × String) × Int)) (ps : List (String × String)) :
    List ((String × String) × Int) :=
  ps.foldl (fun l p => setCnt l p (max 0 (cnt l p - 1))) l

/-- `for p in ps: counter[p] = counter.get(p, 0) + 1`. -/
def incPairs (l : List ((String × String) × Int)) (ps : List (String × String)) :
    List ((String × String) × Int) :=
  ps.foldl (fun l p => setCnt l p (cnt l p + 1)) l

/-- `compute_exposures_and_pairs` of `src/div_lineup.py`: player and pair
Counters over the whole batch. -/
def computeExposures (slotCols : List String) (rows : List Row) :
    List (String × Int) × List ((String × String) × Int) :=
  (counterOf ((rows.map (fun r => rowKeys slotCols r)).flatten),
   counterOf ((rows.map (fun r => allPairs (rowKeys slotCols r))).flatten))

/-- `SLOT_TO_ALLOWED_POS` (identical in both files). -/
def slotToAllowedPos : List (String × List String) :=
  [("QB", ["QB"]), ("RB1", ["RB"]), ("RB2", ["RB"]), ("WR1", ["WR"]), ("WR2", ["WR"]),
   ("WR3", ["WR"]), ("TE", ["TE"]), ("FLEX", ["RB", "WR", "TE"]), ("DST", ["DST"])]

/-- `candidates_by_slot` of `src/div_lineup.py`: position-eligible keys, with
the position-less-FLEX fallback. -/
def candidatesForSlot (tbl : List (String × PlayerInfo)) (slot : String) : List String :=
  match slotToAllowedPos.lookup slot with
  | none => []
  | some allowed =>
    tbl.filterMap (fun e =>
      let posList := e.2.positions.map strUpper
      if posList = [] ∧ slot = "FLEX" then some e.1
      else if posList.any (fun p => allowed.contains p) then some e.1
      else none)

/-- `player_info.get(n, {}).get("salary", 0)`. -/
def infoSalary (tbl : List (String × PlayerInfo)) (n : String) : ℚ :=
  ((tbl.lookup n).map (·.salary)).getD 0

/-- `player_info.get(n, {}).get("fppg", 0)`. -/
def infoFppg (tbl : List (String × PlayerInfo)) (n : String) : ℚ :=
  ((tbl.lookup n).map (·.fppg)).getD 0

/-- The replacement cell string built on acceptance (lines 267–275):
`display(pid)` when the id is truthy, else `display (team)` when the team is
truthy, else `display`; a key missing from the table falls back to the key. -/
def mkCell (tbl : List (String × PlayerInfo)) (k : String) : String :=
  let inf := (tbl.lookup k).getD
    { display := k, pid := none, positions := [], team := "", salary := 0, fppg := 0 }
  let pidStr := inf.pid.getD ""
  if pidStr ≠ "" then inf.display ++ "(" ++ pidStr ++ ")"
  else if inf.team ≠ "" then inf.display ++ " (" ++ inf.team ++ ")"
  else inf.display

/-- One random draw: the permutation used by `random.sample`/`random.shuffle`
and the value returned by `random.random()`. -/
structure RDraw where
  perm : List String → List String
  val : ℚ

/-- The parameters of `diversify_lineups_wide`. -/
structure DivParams where
  tbl : List (String × PlayerInfo)
  slotOrder : List String
  maxExposure : ℚ
  maxPairExposure : ℚ
  randomness : ℚ
  salaryCap : ℚ
  salaryMin : ℚ
deriving Repr

/-- The mutable state of a pass: the frame plus the two Counters. -/
structure DivState where
  rows : List Row
  exposure : List (String × Int)
  pairExp : List ((String × String) × Int)
deriving Repr

/-- The data produced by an accepted substitution. -/
structure AcceptResult where
  row : Row
  exposure : List (String × Int)
  pairExp : List ((String × String) × Int)
  names : List String
deriving Repr

/-- `sim_players = [n for n in current_names if n != original] + [cand_key]`. -/
def simOf (currentNames : List String) (original cand : String) : List String :=
  (currentNames.filter (fun n => n ≠ original)) ++ [cand]

/-- The simulated salary, recomputed fresh from the table. -/
def simSalaryOf (tbl : List (String × PlayerInfo)) (currentNames : List String)
    (original cand : String) : ℚ :=
  ((simOf currentNames original cand).map (infoSalary tbl)).sum

/-- `old_pairs_in_line` (line 228), a set. -/
def oldPairsOf (currentNames : List String) (original : String) : List (String × String) :=
  ((currentNames.filter (fun n => n ≠ original)).map (fun o => pkey original o)).dedup

/-- `temp_pair_counts` (lines 254–260): simulated pair Counter after clamped
decrements of the old pairs and increments of the new pairs. -/
def tempOf (pairExp : List ((String × String) × Int)) (currentNames : List String)
    (original cand : String) : List ((String × String) × Int) :=
  incPairs (decPairs pairExp (oldPairsOf currentNames original))
    ((allPairs (simOf currentNames original cand)).dedup)

/-- The acceptance block of `diversify_lineups_wide` (lines 267–298): rewrite
the cell, apply the clamped exposure updates, install the simulated pair
Counter (the code recomputes it identically from `pair_exposure`), recompute
the occupant names from the frame and overwrite the stored totals from the
table. -/
def acceptWide (P : DivParams) (slotCols : List String) (row : Row)
    (exposure : List (String × Int)) (pairExp : List ((String × String) × Int))
    (currentNames : List String) (original cand : String) (s : String) : AcceptResult :=
  let row1 := setCell row s (mkCell P.tbl cand)
  let exp1 := setCnt exposure original (max 0 (cnt exposure original - 1))
  let names1 := rowKeys slotCols row1
  { row := { row1 with
      totalSalary := (names1.map (infoSalary P.tbl)).sum,
      projectedPoints := (names1.map (infoFppg P.tbl)).sum },
    exposure := setCnt exp1 cand (cnt exp1 cand + 1),
    pairExp := tempOf pairExp currentNames original cand,
    names := names1 }

/-- The candidate loop of `diversify_lineups_wide` (lines 230–298): skip the
original occupant, candidates already in the lineup, candidates whose bumped
exposure would break the target, simulated lineups outside the salary window,
and candidates whose simulated pair Counter holds ANY value over the pair
target; the first surviving candidate is accepted. -/
def tryCandidates (P : DivParams) (N : Nat) (slotCols : List String) (row : Row)
    (exposure : List (String × Int)) (pairExp : List ((String × String) × Int))
    (currentNames : List String) (original : String) (s : String) :
    List String → Option AcceptResult
  | [] => none
  | cand :: rest =>
    if cand = original then
      tryCandidates P N slotCols row exposure pairExp currentNames original s rest
    else if currentNames.contains cand then
      tryCandidates P N slotCols row exposure pairExp currentNames original s rest
    else if ((cnt exposure cand + 1 : Int) : ℚ) / (N : ℚ) > P.maxExposure then
      tryCandidates P N slotCols row exposure pairExp currentNames original s rest
    else if simSalaryOf P.tbl currentNames original cand < P.salaryMin ∨
        simSalaryOf P.tbl currentNames original cand > P.salaryCap then
      tryCandidates P N slotCols row exposure pairExp currentNames original s rest
    else if (tempOf pairExp currentNames original cand).any
        (fun e => ((e.2 : Int) : ℚ) / (N : ℚ) > P.maxPairExposure) then
      tryCandidates P N slotCols row exposure pairExp currentNames original s rest
    else
      some (acceptWide P slotCols row exposure pairExp currentNames original cand s)

/-- One slot of one lineup (lines 207–301): untouched when the occupant is
within the player target and every pair involving it is within the pair
target; otherwise the randomness throttle is drawn and, if it passes, the
shuffled candidate list is tried. -/
def processSlot (P : DivParams) (N : Nat) (slotCols : List String) (oracle : Nat → RDraw)
    (li : Nat) (acc : DivState × List String × Nat) (s : String) :
    DivState × List String × Nat :=
  let st := acc.1
  let currentNames := acc.2.1
  let ridx := acc.2.2
  let row := st.rows.getD li ⟨[], 0, 0⟩
  let cell := getCell row s
  if strStrip cell = "" then acc
  else
    let original := nameKeyFromCell cell
    let playerExp := ((cnt st.exposure original : Int) : ℚ) / (N : ℚ)
    let linePairs := (currentNames.filter (fun o => o ≠ original)).map (fun o => pkey original o)
    let pairFlag :=
      linePairs.any (fun p => ((cnt st.pairExp p : Int) : ℚ) / (N : ℚ) > P.maxPairExposure)
    if playerExp ≤ P.maxExposure ∧ pairFlag = false then acc
    else if (oracle ridx).val > P.randomness then (st, currentNames, ridx + 1)
    else
      let shuffled := (oracle ridx).perm (candidatesForSlot P.tbl s)
      match tryCandidates P N slotCols row st.exposure st.pairExp currentNames original s
          shuffled with
      | none => (st, currentNames, ridx + 1)
      | some r =>
        ({ rows := st.rows.set li r.row, exposure := r.exposure, pairExp := r.pairExp },
         r.names, ridx + 1)

/-- One lineup of the main loop (lines 198–301): draw the random slot order,
read the occupant names, process each slot in that order. -/
def processLineup (P : DivParams) (N : Nat) (slotCols : List String) (oracle : Nat → RDraw)
    (acc : DivState × Nat) (li : Nat) : DivState × Nat :=
  let st := acc.1
  let ridx := acc.2
  let order := (oracle ridx).perm slotCols
  let names0 := rowKeys slotCols (st.rows.getD li ⟨[], 0, 0⟩)
  let res := order.foldl (processSlot P N slotCols oracle li) (st, names0, ridx + 1)
  (res.1, res.2.2)

/-- The final pass (lines 302–308): both stored totals of every row are
recomputed from the authoritative table. -/
def recomputeTotals (tbl : List (String × PlayerInfo)) (slotCols : List String) (r : Row) :
    Row :=
  let names := rowKeys slotCols r
  { r with totalSalary := (names.map (infoSalary tbl)).sum,
           projectedPoints := (names.map (infoFppg tbl)).sum }

/-- `slot_cols = [c for c in slot_order if c in df.columns]`. -/
def slotColsOf (P : DivParams) (rows0 : List Row) : List String :=
  P.slotOrder.filter (fun c => (rowCols (rows0.headD ⟨[], 0, 0⟩)).contains c)

/-- The initial state of the wide pass (lines 175–181): the copied frame plus
the Counters of `compute_exposures_and_pairs`. -/
def wideInit (P : DivParams) (rows0 : List Row) : DivState :=
  { rows := rows0,
    exposure := (computeExposures (slotColsOf P rows0) rows0).1,
    pairExp := (computeExposures (slotColsOf P rows0) rows0).2 }

/-- `diversify_lineups_wide`, exposing the final state (frame plus both
Counters). -/
def divWideFull (P : DivParams) (oracle : Nat → RDraw) (rows0 : List Row) : DivState :=
  if rows0.length = 0 then { rows := rows0, exposure := [], pairExp := [] }
  else
    let res := (List.range rows0.length).foldl
      (processLineup P rows0.length (slotColsOf P rows0) oracle) (wideInit P rows0, 0)
    { res.1 with rows := res.1.rows.map (recomputeTotals P.tbl (slotColsOf P rows0)) }

/-- `diversify_lineups_wide` as the caller sees it: the returned frame. -/
def divWide (P : DivParams) (oracle : Nat → RDraw) (rows0 : List Row) : List Row :=
  (divWideFull P oracle rows0).rows

/-! ### The narrow pass of `src/nfl.py` (`diversify_lineups`). -/

/-- Occupant names as the loop of `src/nfl.py` computes them (lines 103 and
159): every cell, with no strip check — empty cells contribute `""`. -/
def rowNamesNfl (slotCols : List String) (r : Row) : List String :=
  slotCols.map (fun c => nameKeyNfl (getCell r c))

/-- Occupant names as `compute_exposures` of `src/nfl.py` collects them
(with the strip check). -/
def rowKeysNfl (slotCols : List String) (r : Row) : List String :=
  slotCols.filterMap (fun c =>
    let v := getCell r c
    if strStrip v = "" then none else some (nameKeyNfl v))

/-- `compute_exposures` of `src/nfl.py`. -/
def computeExposuresNfl (slotCols : List String) (rows : List Row) :
    List (String × Int) × List ((String × String) × Int) :=
  (counterOf ((rows.map (fun r => rowKeysNfl slotCols r)).flatten),
   counterOf ((rows.map (fun r => allPairs (rowKeysNfl slotCols r))).flatten))

/-- `candidates_by_slot` of `src/nfl.py` (no FLEX fallback). -/
def candidatesForSlotNfl (tbl : List (String × PlayerInfo)) (slot : String) : List String :=
  match slotToAllowedPos.lookup slot with
  | none => []
  | some allowed =>
    tbl.filterMap (fun e =>
      if e.2.positions.any (fun p => allowed.contains p) then some e.1 else none)

/-- The replacement cell of `src/nfl.py` (lines 145–147), built from the key
rather than a display name. -/
def mkCellNfl (tbl : List (String × PlayerInfo)) (cand : String) : String :=
  let inf := (tbl.lookup cand).getD
    { display := cand, pid := none, positions := [], team := "", salary := 0, fppg := 0 }
  let pidStr := inf.pid.getD ""
  if pidStr ≠ "" then cand ++ "(" ++ pidStr ++ ")"
  else if inf.team ≠ "" then cand ++ " (" ++ inf.team ++ ")"
  else cand

/-- Pair check of the candidate loop in `src/nfl.py` (lines 131–141): a
pair's prospective count is bumped only when the pair is not among the
original occupant's pairs of this lineup. -/
def pairViolationNfl (pairExp : List ((String × String) × Int)) (N : Nat) (maxPair : ℚ)
    (simPlayers : List String) (lineupPairs : List (String × String)) : Bool :=
  (allPairs simPlayers).any (fun p =>
    ((cnt pairExp p + (if lineupPairs.contains p then 0 else 1) : Int) : ℚ) / (N : ℚ) > maxPair)

/-- Ledger update on acceptance in `src/nfl.py` (lines 150–157): pairwise
clamped decrement of each old pair and increment of each new pair, iterating
over the occupant list. -/
def updatePairsNfl (pairExp : List ((String × String) × Int)) (currentNames : List String)
    (orig cand : String) : List ((String × String) × Int) :=
  currentNames.foldl (fun l other =>
    if other = orig then l
    else
      let l1 := setCnt l (pkey orig other) (max 0 (cnt l (pkey orig other) - 1))
      setCnt l1 (pkey cand other) (cnt l1 (pkey cand other) + 1)) pairExp

/-- The parameters of `diversify_lineups` of `src/nfl.py`. -/
structure NflParams where
  tbl : List (String × PlayerInfo)
  maxExp : ℚ
  maxPair : ℚ
  randomness : ℚ
  salaryCap : ℚ
  salaryMin : ℚ
deriving Repr

/-- The acceptance block of `src/nfl.py` (lines 144–161). -/
def acceptNfl (Q : NflParams) (slotCols : List String) (row : Row)
    (exposure : List (String × Int)) (pairExp : List ((String × String) × Int))
    (currentNames : List String) (orig cand : String) (col : String) : AcceptResult :=
  let row1 := setCell row col (mkCellNfl Q.tbl cand)
  let exp1 := setCnt exposure orig (max 0 (cnt exposure orig - 1))
  let names1 := rowNamesNfl slotCols row1
  { row := { row1 with
      totalSalary := (names1.map (infoSalary Q.tbl)).sum,
      projectedPoints := (names1.map (infoFppg Q.tbl)).sum },
    exposure := setCnt exp1 cand (cnt exp1 cand + 1),
    pairExp := updatePairsNfl pairExp currentNames orig cand,
    names := names1 }

/-- The candidate loop of `src/nfl.py` (lines 121–162).  No per-candidate
exposure check exists in this version. -/
def tryCandidatesNfl (Q : NflParams) (N : Nat) (slotCols : List String) (row : Row)
    (exposure : List (String × Int)) (pairExp : List ((String × String) × Int))
    (currentNames : List String) (orig : String) (col : String)
    (lineupPairs : List (String × String)) : List String → Option AcceptResult
  | [] => none
  | cand :: rest =>
    if cand = orig ∨ currentNames.contains cand then
      tryCandidatesNfl Q N slotCols row exposure pairExp currentNames orig col lineupPairs rest
    else if ¬ (Q.salaryMin ≤ simSalaryOf Q.tbl currentNames orig cand ∧
        simSalaryOf Q.tbl currentNames orig cand ≤ Q.salaryCap) then
      tryCandidatesNfl Q N slotCols row exposure pairExp currentNames orig col lineupPairs rest
    else if pairViolationNfl pairExp N Q.maxPair (simOf currentNames orig cand) lineupPairs then
      tryCandidatesNfl Q N slotCols row exposure pairExp currentNames orig col lineupPairs rest
    else
      some (acceptNfl Q slotCols row exposure pairExp currentNames orig cand col)

/-- One column of one lineup of `src/nfl.py` (lines 104–162). -/
def processColNfl (Q : NflParams) (N : Nat) (slotCols : List String) (oracle : Nat → RDraw)
    (li : Nat) (acc : DivState × List String × Nat) (col : String) :
    DivState × List String × Nat :=
  let st := acc.1
  let currentNames := acc.2.1
  let ridx := acc.2.2
  let row := st.rows.getD li ⟨[], 0, 0⟩
  let cell := getCell row col
  if strStrip cell = "" then acc
  else
    let name := nameKeyNfl cell
    let playerExp := ((cnt st.exposure name : Int) : ℚ) / (N : ℚ)
    let lineupPairs := (currentNames.filter (fun o => o ≠ name)).map (fun o => pkey name o)
    let pairFlag :=
      lineupPairs.any (fun p => ((cnt st.pairExp p : Int) : ℚ) / (N : ℚ) > Q.maxPair)
    if playerExp ≤ Q.maxExp ∧ pairFlag = false then acc
    else if (oracle ridx).val > Q.randomness then (st, currentNames, ridx + 1)
    else
      let cands := (oracle ridx).perm (candidatesForSlotNfl Q.tbl col)
      match tryCandidatesNfl Q N slotCols row st.exposure st.pairExp currentNames name col
          lineupPairs cands with
      | none => (st, currentNames, ridx + 1)
      | some r =>
        ({ rows := st.rows.set li r.row, exposure := r.exposure, pairExp := r.pairExp },
         r.names, ridx + 1)

/-- One lineup of `src/nfl.py` (lines 102–162): columns in their fixed frame
order. -/
def processLineupNfl (Q : NflParams) (N : Nat) (slotCols : List String)
    (oracle : Nat → RDraw) (acc : DivState × Nat) (li : Nat) : DivState × Nat :=
  let st := acc.1
  let ridx := acc.2
  let names0 := rowNamesNfl slotCols (st.rows.getD li ⟨[], 0, 0⟩)
  let res := slotCols.foldl (processColNfl Q N slotCols oracle li) (st, names0, ridx)
  (res.1, res.2.2)

/-- The initial state of the narrow pass. -/
def nflInit (rows0 : List Row) : DivState :=
  { rows := rows0,
    exposure := (computeExposuresNfl (rowCols (rows0.headD ⟨[], 0, 0⟩)) rows0).1,
    pairExp := (computeExposuresNfl (rowCols (rows0.headD ⟨[], 0, 0⟩)) rows0).2 }

/-- `diversify_lineups` of `src/nfl.py`, exposing the final state.  There is
no final recompute pass in this version. -/
def divNflFull (Q : NflParams) (oracle : Nat → RDraw) (rows0 : List Row) : DivState :=
  if rows0.length = 0 then { rows := rows0, exposure := [], pairExp := [] }
  else
    ((List.range rows0.length).foldl
      (processLineupNfl Q rows0.length (rowCols (rows0.headD ⟨[], 0, 0⟩)) oracle)
      (nflInit rows0, 0)).1

/-- `diversify_lineups` as the caller sees it. -/
def divNfl (Q : NflParams) (oracle : Nat → RDraw) (rows0 : List Row) : List Row :=
  (divNflFull Q oracle rows0).rows

/-! ### Ledger nonnegativity (claim C10). -/

/-- Every count stored in a Counter is nonnegative. -/
def LedgerNonneg {α : Type} (l : List (α × Int)) : Prop := ∀ e ∈ l, 0 ≤ e.2

theorem cnt_nonneg {α : Type} [BEq α] (l : List (α × Int)) (k : α)
    (h : LedgerNonneg l) : 0 ≤ cnt l k := by
  induction l with
  | nil => simp [cnt, List.lookup]
  | cons e rest ih =>
    rcases e with ⟨k', v⟩
    by_cases hk : (k == k') = true
    · simpa [cnt, List.lookup, hk] using h (k', v) (List.mem_cons_self _ _)
    · have := ih (fun e he => h e (List.mem_cons_of_mem _ he))
      simpa [cnt, List.lookup, hk] using this

theorem setCnt_nonneg {α : Type} [BEq α] [DecidableEq α] (l : List (α × Int)) (k : α)
    (v : Int) (hl : LedgerNonneg l) (hv : 0 ≤ v) : LedgerNonneg (setCnt l k v) := by
  unfold setCnt
  by_cases hs : (l.lookup k).isSome = true
  · rw [if_pos hs]
    rintro e he
    rw [List.mem_map] at he
    obtain ⟨e', he', rfl⟩ := he
    by_cases h1 : e'.1 = k
    · simpa [h1] using hv
    · simpa [h1] using hl e' he'
  · rw [if_neg hs]
    intro e he
    rcases List.mem_append.mp he with h | h
    · exact hl e h
    · simp only [List.mem_singleton] at h
      subst h
      exact hv

theorem bumpCnt_nonneg {α : Type} [BEq α] [DecidableEq α] (l : List (α × Int)) (k : α)
    (hl : LedgerNonneg l) : LedgerNonneg (bumpCnt l k) := by
  refine setCnt_nonneg _ _ _ hl ?_
  have := cnt_nonneg l k hl
  omega

theorem counterOf_nonneg {α : Type} [BEq α] [DecidableEq α] (ks : List α) :
    LedgerNonneg (counterOf ks) := by
  suffices h : ∀ l, LedgerNonneg l → LedgerNonneg (ks.foldl bumpCnt l) by
    refine h [] ?_
    intro e he
    simp at he
  induction ks with
  | nil => exact fun l h => h
  | cons k ks ih =>
    intro l hl
    exact ih _ (bumpCnt_nonneg _ _ hl)

theorem decPairs_nonneg (l : List ((String × String) × Int)) (ps : List (String × String))
    (h : LedgerNonneg l) : LedgerNonneg (decPairs l ps) := by
  induction ps generalizing l with
  | nil => exact h
  | cons p ps ih =>
    simp only [decPairs, List.foldl_cons]
    exact ih _ (setCnt_nonneg _ _ _ h (le_max_left 0 _))

theorem incPairs_nonneg (l : List ((String × String) × Int)) (ps : List (String × String))
    (h : LedgerNonneg l) : LedgerNonneg (incPairs l ps) := by
  induction ps generalizing l with
  | nil => exact h
  | cons p ps ih =>
    simp only [incPairs, List.foldl_cons]
    refine ih _ (setCnt_nonneg _ _ _ h ?_)
    have := cnt_nonneg l p h
    omega

theorem tempOf_nonneg (pairExp : List ((String × String) × Int)) (currentNames : List String)
    (original cand : String) (h : LedgerNonneg pairExp) :
    LedgerNonneg (tempOf pairExp currentNames original cand) :=
  incPairs_nonneg _ _ (decPairs_nonneg _ _ h)

theorem updatePairsNfl_nonneg (pairExp : List ((String × String) × Int))
    (currentNames : List String) (orig cand : String) (h : LedgerNonneg pairExp) :
    LedgerNonneg (updatePairsNfl pairExp currentNames orig cand) := by
  unfold updatePairsNfl
  induction currentNames generalizing pairExp with
  | nil => exact h
  | cons other rest ih =>
    simp only [List.foldl_cons]
    by_cases ho : other = orig
    · rw [if_pos ho]
      exact ih _ h
    · rw [if_neg ho]
      refine ih _ ?_
      have h1 := setCnt_nonneg pairExp (pkey orig other)
        (max 0 (cnt pairExp (pkey orig other) - 1)) h (le_max_left 0 _)
      refine setCnt_nonneg _ _ _ h1 ?_
      have := cnt_nonneg (setCnt pairExp (pkey orig other)
        (max 0 (cnt pairExp (pkey orig other) - 1))) (pkey cand other) h1
      omega

/-- Both Counters of a pass state are nonnegative. -/
def StateNonneg (st : DivState) : Prop :=
  LedgerNonneg st.exposure ∧ LedgerNonneg st.pairExp

theorem acceptWide_nonneg (P : DivParams) (slotCols : List String) (row : Row)
    (exposure : List (String × Int)) (pairExp : List ((String × String) × Int))
    (currentNames : List String) (original cand : String) (s : String)
    (hE : LedgerNonneg exposure) (hP : LedgerNonneg pairExp) :
    LedgerNonneg (acceptWide P slotCols row exposure pairExp currentNames original cand s).exposure ∧
    LedgerNonneg (acceptWide P slotCols row exposure pairExp currentNames original cand s).pairExp := by
  constructor
  · have h1 := setCnt_nonneg exposure original
      (max 0 (cnt exposure original - 1)) hE (le_max_left 0 _)
    refine setCnt_nonneg _ _ _ h1 ?_
    have := cnt_nonneg (setCnt exposure original
      (max 0 (cnt exposure original - 1))) cand h1
    omega
  · exact tempOf_nonneg _ _ _ _ hP

theorem tryCandidates_nonneg (P : DivParams) (N : Nat) (slotCols : List String) (row : Row)
    (exposure : List (String × Int)) (pairExp : List ((String × String) × Int))
    (currentNames : List String) (original : String) (s : String) (cands : List String)
    (hE : LedgerNonneg exposure) (hP : LedgerNonneg pairExp) (r : AcceptResult)
    (h : tryCandidates P N slotCols row exposure pairExp currentNames original s cands
        = some r) :
    LedgerNonneg r.exposure ∧ LedgerNonneg r.pairExp := by
  induction cands with
  | nil => simp [tryCandidates] at h
  | cons cand rest ih =>
    rw [tryCandidates] at h
    split at h
    · exact ih h
    · split at h
      · exact ih h
      · split at h
        · exact ih h
        · split at h
          · exact ih h
          · split at h
            · exact ih h
            · rw [Option.some.injEq] at h
              subst h
              exact acceptWide_nonneg P slotCols row exposure pairExp currentNames
                original cand s hE hP

theorem acceptNfl_nonneg (Q : NflParams) (slotCols : List String) (row : Row)
    (exposure : List (String × Int)) (pairExp : List ((String × String) × Int))
    (currentNames : List String) (orig cand : String) (col : String)
    (hE : LedgerNonneg exposure) (hP : LedgerNonneg pairExp) :
    LedgerNonneg (acceptNfl Q slotCols row exposure pairExp currentNames orig cand col).exposure ∧
    LedgerNonneg (acceptNfl Q slotCols row exposure pairExp currentNames orig cand col).pairExp := by
  constructor
  · have h1 := setCnt_nonneg exposure orig
      (max 0 (cnt exposure orig - 1)) hE (le_max_left 0 _)
    refine setCnt_nonneg _ _ _ h1 ?_
    have := cnt_nonneg (setCnt exposure orig (max 0 (cnt exposure orig - 1))) cand h1
    omega
  · exact updatePairsNfl_nonneg _ _ _ _ hP

theorem tryCandidatesNfl_nonneg (Q : NflParams) (N : Nat) (slotCols : List String) (row : Row)
    (exposure : List (String × Int)) (pairExp : List ((String × String) × Int))
    (currentNames : List String) (orig : String) (col : String)
    (lineupPairs : List (String × String)) (cands : List String)
    (hE : LedgerNonneg exposure) (hP : LedgerNonneg pairExp) (r : AcceptResult)
    (h : tryCandidatesNfl Q N slotCols row exposure pairExp currentNames orig col
        lineupPairs cands = some r) :
    LedgerNonneg r.exposure ∧ LedgerNonneg r.pairExp := by
  induction cands with
  | nil => simp [tryCandidatesNfl] at h
  | cons cand rest ih =>
    rw [tryCandidatesNfl] at h
    split at h
    · exact ih h
    · split at h
      · exact ih h
      · split at h
        · exact ih h
        · rw [Option.some.injEq] at h
          subst h
          exact acceptNfl_nonneg Q slotCols row exposure pairExp currentNames orig cand
            col hE hP

theorem processSlot_nonneg (P : DivParams) (N : Nat) (slotCols : List String)
    (oracle : Nat → RDraw) (li : Nat) (acc : DivState × List String × Nat) (s : String)
    (h : StateNonneg acc.1) : StateNonneg (processSlot P N slotCols oracle li acc s).1 := by
  obtain ⟨st, names, ridx⟩ := acc
  unfold processSlot
  dsimp only
  split
  · exact h
  · split
    · exact h
    · split
      · exact h
      · split
        · exact h
        · rename_i r hr
          have := tryCandidates_nonneg P N slotCols (st.rows.getD li ⟨[], 0, 0⟩)
            st.exposure st.pairExp names _ s _ h.1 h.2 r hr
          exact ⟨this.1, this.2⟩

theorem processLineup_nonneg (P : DivParams) (N : Nat) (slotCols : List String)
    (oracle : Nat → RDraw) (acc : DivState × Nat) (li : Nat)
    (h : StateNonneg acc.1) : StateNonneg (processLineup P N slotCols oracle acc li).1 := by
  obtain ⟨st, ridx⟩ := acc
  unfold processLineup
  dsimp only
  generalize (oracle ridx).perm slotCols = order
  generalize hg : rowKeys slotCols (st.rows.getD li ⟨[], 0, 0⟩) = names0
  suffices hgen : ∀ (ord : List String) (a : DivState × List String × Nat), StateNonneg a.1 →
      StateNonneg (ord.foldl (processSlot P N slotCols oracle li) a).1 by
    exact hgen order (st, names0, ridx + 1) h
  intro ord
  induction ord with
  | nil => exact fun a ha => ha
  | cons s rest ih =>
    intro a ha
    exact ih _ (processSlot_nonneg P N slotCols oracle li a s ha)

theorem processColNfl_nonneg (Q : NflParams) (N : Nat) (slotCols : List String)
    (oracle : Nat → RDraw) (li : Nat) (acc : DivState × List String × Nat) (col : String)
    (h : StateNonneg acc.1) : StateNonneg (processColNfl Q N slotCols oracle li acc col).1 := by
  obtain ⟨st, names, ridx⟩ := acc
  unfold processColNfl
  dsimp only
  split
  · exact h
  · split
    · exact h
    · split
      · exact h
      · split
        · exact h
        · rename_i r hr
          have := tryCandidatesNfl_nonneg Q N slotCols (st.rows.getD li ⟨[], 0, 0⟩)
            st.exposure st.pairExp names _ col _ _ h.1 h.2 r hr
          exact ⟨this.1, this.2⟩

theorem processLineupNfl_nonneg (Q : NflParams) (N : Nat) (slotCols : List String)
    (oracle : Nat → RDraw) (acc : DivState × Nat) (li : Nat)
    (h : StateNonneg acc.1) : StateNonneg (processLineupNfl Q N slotCols oracle acc li).1 := by
  obtain ⟨st, ridx⟩ := acc
  unfold processLineupNfl
  dsimp only
  generalize hg : rowNamesNfl slotCols (st.rows.getD li ⟨[], 0, 0⟩) = names0
  suffices hgen : ∀ (ord : List String) (a : DivState × List String × Nat), StateNonneg a.1 →
      StateNonneg (ord.foldl (processColNfl Q N slotCols oracle li) a).1 by
    exact hgen slotCols (st, names0, ridx) h
  intro ord
  induction ord with
  | nil => exact fun a ha => ha
  | cons s rest ih =>
    intro a ha
    exact ih _ (processColNfl_nonneg Q N slotCols oracle li a s ha)

theorem foldlLineups_nonneg (P : DivParams) (N : Nat) (slotCols : List String)
    (oracle : Nat → RDraw) :
    ∀ (lis : List Nat) (a : DivState × Nat), StateNonneg a.1 →
      StateNonneg (lis.foldl (processLineup P N slotCols oracle) a).1 := by
  intro lis
  induction lis with
  | nil => exact fun a ha => ha
  | cons li rest ih =>
    exact fun a ha => ih _ (processLineup_nonneg P N slotCols oracle a li ha)

theorem foldlLineupsNfl_nonneg (Q : NflParams) (N : Nat) (slotCols : List String)
    (oracle : Nat → RDraw) :
    ∀ (lis : List Nat) (a : DivState × Nat), StateNonneg a.1 →
      StateNonneg (lis.foldl (processLineupNfl Q N slotCols oracle) a).1 := by
  intro lis
  induction lis with
  | nil => exact fun a ha => ha
  | cons li rest ih =>
    exact fun a ha => ih _ (processLineupNfl_nonneg Q N slotCols oracle a li ha)

theorem wideInit_nonneg (P : DivParams) (rows0 : List Row) : StateNonneg (wideInit P rows0) :=
  ⟨counterOf_nonneg _, counterOf_nonneg _⟩

theorem nflInit_nonneg (rows0 : List Row) : StateNonneg (nflInit rows0) :=
  ⟨counterOf_nonneg _, counterOf_nonneg _⟩

theorem divWideFull_nonneg (P : DivParams) (oracle : Nat → RDraw) (rows0 : List Row) :
    StateNonneg (divWideFull P oracle rows0) := by
  unfold divWideFull
  split
  · exact ⟨fun e he => absurd he (List.not_mem_nil e),
      fun e he => absurd he (List.not_mem_nil e)⟩
  · have hf := foldlLineups_nonneg P rows0.length (slotColsOf P rows0) oracle
      (List.range rows0.length) (wideInit P rows0, 0) (wideInit_nonneg P rows0)
    exact ⟨hf.1, hf.2⟩

theorem divNflFull_nonneg (Q : NflParams) (oracle : Nat → RDraw) (rows0 : List Row) :
    StateNonneg (divNflFull Q oracle rows0) := by
  unfold divNflFull
  split
  · exact ⟨fun e he => absurd he (List.not_mem_nil e),
      fun e he => absurd he (List.not_mem_nil e)⟩
  · exact foldlLineupsNfl_nonneg Q rows0.length (rowCols (rows0.headD ⟨[], 0, 0⟩)) oracle
      (List.range rows0.length) (nflInit rows0, 0) (nflInit_nonneg rows0)

/-- **C10**: every counter of the diversification ledgers stays ≥ 0.  The
initial Counters are occurrence counts, every decrement (in both passes, and
in the simulated `temp_pair_counts`) is clamped with `max(0, …)`, and every
slot/column step preserves nonnegativity of both ledgers — so the ledgers are
nonnegative at every point of a pass, and in particular at its end. -/
theorem C10_ledger_nonneg :
    (∀ (P : DivParams) (oracle : Nat → RDraw) (rows0 : List Row),
      LedgerNonneg (divWideFull P oracle rows0).exposure ∧
      LedgerNonneg (divWideFull P oracle rows0).pairExp) ∧
    (∀ (Q : NflParams) (oracle : Nat → RDraw) (rows0 : List Row),
      LedgerNonneg (divNflFull Q oracle rows0).exposure ∧
      LedgerNonneg (divNflFull Q oracle rows0).pairExp) ∧
    (∀ (P : DivParams) (N : Nat) (slotCols : List String) (oracle : Nat → RDraw) (li : Nat)
        (acc : DivState × List String × Nat) (s : String), StateNonneg acc.1 →
      StateNonneg (processSlot P N slotCols oracle li acc s).1) ∧
    (∀ (pairExp : List ((String × String) × Int)) (currentNames : List String)
        (original cand : String), LedgerNonneg pairExp →
      LedgerNonneg (tempOf pairExp currentNames original cand)) ∧
    (∀ (Q : NflParams) (N : Nat) (slotCols : List String) (oracle : Nat → RDraw) (li : Nat)
        (acc : DivState × List String × Nat) (col : String), StateNonneg acc.1 →
      StateNonneg (processColNfl Q N slotCols oracle li acc col).1) :=
  ⟨divWideFull_nonneg, divNflFull_nonneg, processSlot_nonneg, tempOf_nonneg,
   processColNfl_nonneg⟩

/-! ### Idempotence on compliant batches (claim C4). -/

theorem processSlot_skip (P : DivParams) (N : Nat) (slotCols : List String)
    (oracle : Nat → RDraw) (li : Nat) (st : DivState) (names : List String) (ridx : Nat)
    (s : String)
    (hex : ∀ k, ((cnt st.exposure k : Int) : ℚ) / (N : ℚ) ≤ P.maxExposure)
    (hpair : ∀ p, ((cnt st.pairExp p : Int) : ℚ) / (N : ℚ) ≤ P.maxPairExposure) :
    processSlot P N slotCols oracle li (st, names, ridx) s = (st, names, ridx) := by
  unfold processSlot
  dsimp only
  split
  · rfl
  · split
    · rfl
    · rename_i hcond
      exfalso
      apply hcond
      constructor
      · exact hex _
      · rw [List.any_eq_false]
        intro p hp
        simp only [decide_eq_true_eq, not_lt]
        exact hpair p

theorem processSlots_skip (P : DivParams) (N : Nat) (slotCols : List String)
    (oracle : Nat → RDraw) (li : Nat) (st : DivState)
    (hex : ∀ k, ((cnt st.exposure k : Int) : ℚ) / (N : ℚ) ≤ P.maxExposure)
    (hpair : ∀ p, ((cnt st.pairExp p : Int) : ℚ) / (N : ℚ) ≤ P.maxPairExposure) :
    ∀ (order : List String) (names : List String) (ridx : Nat),
      order.foldl (processSlot P N slotCols oracle li) (st, names, ridx) = (st, names, ridx) := by
  intro order
  induction order with
  | nil => intro names ridx; rfl
  | cons s rest ih =>
    intro names ridx
    rw [List.foldl_cons, processSlot_skip P N slotCols oracle li st names ridx s hex hpair]
    exact ih names ridx

theorem processLineup_skip (P : DivParams) (N : Nat) (slotCols : List String)
    (oracle : Nat → RDraw) (st : DivState) (ridx : Nat) (li : Nat)
    (hex : ∀ k, ((cnt st.exposure k : Int) : ℚ) / (N : ℚ) ≤ P.maxExposure)
    (hpair : ∀ p, ((cnt st.pairExp p : Int) : ℚ) / (N : ℚ) ≤ P.maxPairExposure) :
    processLineup P N slotCols oracle (st, ridx) li = (st, ridx + 1) := by
  unfold processLineup
  dsimp only
  rw [processSlots_skip P N slotCols oracle li st hex hpair]

theorem foldl_lineups_skip (P : DivParams) (N : Nat) (slotCols : List String)
    (oracle : Nat → RDraw) (st : DivState)
    (hex : ∀ k, ((cnt st.exposure k : Int) : ℚ) / (N : ℚ) ≤ P.maxExposure)
    (hpair : ∀ p, ((cnt st.pairExp p : Int) : ℚ) / (N : ℚ) ≤ P.maxPairExposure) :
    ∀ (lis : List Nat) (r : Nat),
      (lis.foldl (processLineup P N slotCols oracle) (st, r)).1 = st := by
  intro lis
  induction lis with
  | nil => intro r; rfl
  | cons li rest ih =>
    intro r
    rw [List.foldl_cons, processLineup_skip P N slotCols oracle st r li hex hpair]
    exact ih (r + 1)

theorem processColNfl_skip (Q : NflParams) (N : Nat) (slotCols : List String)
    (oracle : Nat → RDraw) (li : Nat) (st : DivState) (names : List String) (ridx : Nat)
    (col : String)
    (hex : ∀ k, ((cnt st.exposure k : Int) : ℚ) / (N : ℚ) ≤ Q.maxExp)
    (hpair : ∀ p, ((cnt st.pairExp p : Int) : ℚ) / (N : ℚ) ≤ Q.maxPair) :
    processColNfl Q N slotCols oracle li (st, names, ridx) col = (st, names, ridx) := by
  unfold processColNfl
  dsimp only
  split
  · rfl
  · split
    · rfl
    · rename_i hcond
      exfalso
      apply hcond
      constructor
      · exact hex _
      · rw [List.any_eq_false]
        intro p hp
        simp only [decide_eq_true_eq, not_lt]
        exact hpair p

theorem processColsNfl_skip (Q : NflParams) (N : Nat) (slotCols : List String)
    (oracle : Nat → RDraw) (li : Nat) (st : DivState)
    (hex : ∀ k, ((cnt st.exposure k : Int) : ℚ) / (N : ℚ) ≤ Q.maxExp)
    (hpair : ∀ p, ((cnt st.pairExp p : Int) : ℚ) / (N : ℚ) ≤ Q.maxPair) :
    ∀ (order : List String) (names : List String) (ridx : Nat),
      order.foldl (processColNfl Q N slotCols oracle li) (st, names, ridx) =
        (st, names, ridx) := by
  intro order
  induction order with
  | nil => intro names ridx; rfl
  | cons s rest ih =>
    intro names ridx
    rw [List.foldl_cons, processColNfl_skip Q N slotCols oracle li st names ridx s hex hpair]
    exact ih names ridx

theorem processLineupNfl_skip (Q : NflParams) (N : Nat) (slotCols : List String)
    (oracle : Nat → RDraw) (st : DivState) (ridx : Nat) (li : Nat)
    (hex : ∀ k, ((cnt st.exposure k : Int) : ℚ) / (N : ℚ) ≤ Q.maxExp)
    (hpair : ∀ p, ((cnt st.pairExp p : Int) : ℚ) / (N : ℚ) ≤ Q.maxPair) :
    processLineupNfl Q N slotCols oracle (st, ridx) li = (st, ridx) := by
  unfold processLineupNfl
  dsimp only
  rw [processColsNfl_skip Q N slotCols oracle li st hex hpair]

theorem foldl_lineupsNfl_skip (Q : NflParams) (N : Nat) (slotCols : List String)
    (oracle : Nat → RDraw) (st : DivState)
    (hex : ∀ k, ((cnt st.exposure k : Int) : ℚ) / (N : ℚ) ≤ Q.maxExp)
    (hpair : ∀ p, ((cnt st.pairExp p : Int) : ℚ) / (N : ℚ) ≤ Q.maxPair) :
    ∀ (lis : List Nat) (r : Nat),
      lis.foldl (processLineupNfl Q N slotCols oracle) (st, r) = (st, r) := by
  intro lis
  induction lis with
  | nil => intro r; rfl
  | cons li rest ih =>
    intro r
    rw [List.foldl_cons, processLineupNfl_skip Q N slotCols oracle st r li hex hpair]
    exact ih r

/-- On a compliant batch the wide pass returns the input rows with both
stored totals overwritten by the recomputed authoritative sums. -/
theorem divWide_compliant_eq (P : DivParams) (oracle : Nat → RDraw) (rows0 : List Row)
    (hex : ∀ k, ((cnt (wideInit P rows0).exposure k : Int) : ℚ) / (rows0.length : ℚ) ≤
      P.maxExposure)
    (hpair : ∀ p, ((cnt (wideInit P rows0).pairExp p : Int) : ℚ) / (rows0.length : ℚ) ≤
      P.maxPairExposure) :
    divWide P oracle rows0 = rows0.map (recomputeTotals P.tbl (slotColsOf P rows0)) := by
  unfold divWide divWideFull
  split
  · rename_i h0
    rw [List.length_eq_zero.mp h0]
    rfl
  · dsimp only
    rw [foldl_lineups_skip P rows0.length (slotColsOf P rows0) oracle (wideInit P rows0)
      hex hpair (List.range rows0.length) 0]
    rfl

/-- On a compliant batch the narrow pass returns the batch identically. -/
theorem divNfl_compliant_eq (Q : NflParams) (oracle : Nat → RDraw) (rows0 : List Row)
    (hex : ∀ k, ((cnt (nflInit rows0).exposure k : Int) : ℚ) / (rows0.length : ℚ) ≤ Q.maxExp)
    (hpair : ∀ p, ((cnt (nflInit rows0).pairExp p : Int) : ℚ) / (rows0.length : ℚ) ≤
      Q.maxPair) :
    divNfl Q oracle rows0 = rows0 := by
  unfold divNfl divNflFull
  split
  · rfl
  · rw [foldl_lineupsNfl_skip Q rows0.length (rowCols (rows0.headD ⟨[], 0, 0⟩)) oracle
      (nflInit rows0) hex hpair (List.range rows0.length) 0]
    rfl

/-- **C4 (amended)**: on a compliant batch — no player Counter entry over the
player target and no pair Counter entry over the pair target — neither pass
touches any slot cell, for EVERY randomness oracle.  `diversify_lineups`
(`src/nfl.py`) returns the batch identically; `diversify_lineups_wide`
(`src/div_lineup.py`) additionally overwrites both stored totals of every row
with sums recomputed from the table, so its output equals its input exactly
when the stored totals already equal those sums (third conjunct; the
counterexample shows a compliant batch with stale totals that comes back
changed). -/
theorem C4_idempotence :
    (∀ (P : DivParams) (oracle : Nat → RDraw) (rows0 : List Row),
      (∀ k, ((cnt (wideInit P rows0).exposure k : Int) : ℚ) / (rows0.length : ℚ) ≤
        P.maxExposure) →
      (∀ p, ((cnt (wideInit P rows0).pairExp p : Int) : ℚ) / (rows0.length : ℚ) ≤
        P.maxPairExposure) →
      divWide P oracle rows0 = rows0.map (recomputeTotals P.tbl (slotColsOf P rows0)))
    ∧
    (∀ (Q : NflParams) (oracle : Nat → RDraw) (rows0 : List Row),
      (∀ k, ((cnt (nflInit rows0).exposure k : Int) : ℚ) / (rows0.length : ℚ) ≤ Q.maxExp) →
      (∀ p, ((cnt (nflInit rows0).pairExp p : Int) : ℚ) / (rows0.length : ℚ) ≤ Q.maxPair) →
      divNfl Q oracle rows0 = rows0)
    ∧
    (∀ (P : DivParams) (oracle : Nat → RDraw) (rows0 : List Row),
      (∀ k, ((cnt (wideInit P rows0).exposure k : Int) : ℚ) / (rows0.length : ℚ) ≤
        P.maxExposure) →
      (∀ p, ((cnt (wideInit P rows0).pairExp p : Int) : ℚ) / (rows0.length : ℚ) ≤
        P.maxPairExposure) →
      (∀ r ∈ rows0, recomputeTotals P.tbl (slotColsOf P rows0) r = r) →
      divWide P oracle rows0 = rows0) := by
  refine ⟨divWide_compliant_eq, divNfl_compliant_eq, ?_⟩
  intro P oracle rows0 hex hpair hid
  rw [divWide_compliant_eq P oracle rows0 hex hpair]
  exact (List.map_congr_left hid).trans (List.map_id rows0)

def infoA10 : PlayerInfo :=
  { display := "a", pid := some "1", positions := ["QB"], team := "AAA",
    salary := 100, fppg := 10 }

def tblC10 : List (String × PlayerInfo) := [("a", infoA10)]

def rowC10 : Row := { cells := [("QB", "a(1)")], totalSalary := 100, projectedPoints := 10 }

def PW10 : DivParams :=
  { tbl := tblC10, slotOrder := ["QB"], maxExposure := 1, maxPairExposure := 1,
    randomness := 0, salaryCap := 200, salaryMin := 0 }

def QW10 : NflParams :=
  { tbl := tblC10, maxExp := 1, maxPair := 1, randomness := 0,
    salaryCap := 200, salaryMin := 0 }

def oracleI : Nat → RDraw := fun _ => { perm := fun l => l, val := 1 }

/-- A one-lineup batch whose stored totals are stale (0 instead of the
authoritative 100 / 10). -/
def rowStale : Row := { cells := [("QB", "a(1)")], totalSalary := 0, projectedPoints := 0 }

theorem rowStale_hex :
    ∀ k, ((cnt (wideInit PW10 [rowStale]).exposure k : Int) : ℚ) /
      ((List.length ([rowStale] : List Row) : Nat) : ℚ) ≤ PW10.maxExposure := by
  intro k
  have he : (wideInit PW10 [rowStale]).exposure = [("a", 1)] := by decide
  rw [he]
  by_cases hk : (k == "a") = true <;>
    simp [cnt, List.lookup, hk, PW10]

theorem rowStale_hpair :
    ∀ p, ((cnt (wideInit PW10 [rowStale]).pairExp p : Int) : ℚ) /
      ((List.length ([rowStale] : List Row) : Nat) : ℚ) ≤ PW10.maxPairExposure := by
  intro p
  have he : (wideInit PW10 [rowStale]).pairExp = [] := by decide
  rw [he]
  simp [cnt, List.lookup, PW10]

theorem rowC10_hexN :
    ∀ k, ((cnt (nflInit [rowC10]).exposure k : Int) : ℚ) /
      ((List.length ([rowC10] : List Row) : Nat) : ℚ) ≤ QW10.maxExp := by
  intro k
  have he : (nflInit [rowC10]).exposure = [("a", 1)] := by decide
  rw [he]
  by_cases hk : (k == "a") = true <;>
    simp [cnt, List.lookup, hk, QW10]

theorem rowC10_hpairN :
    ∀ p, ((cnt (nflInit [rowC10]).pairExp p : Int) : ℚ) /
      ((List.length ([rowC10] : List Row) : Nat) : ℚ) ≤ QW10.maxPair := by
  intro p
  have he : (nflInit [rowC10]).pairExp = [] := by decide
  rw [he]
  simp [cnt, List.lookup, QW10]

/-- Witness for C4: the compliant-batch conclusions at a concrete one-lineup
batch for both passes. -/
theorem C4_idempotence_witness :
    divWide PW10 oracleI [rowStale] =
      [rowStale].map (recomputeTotals PW10.tbl (slotColsOf PW10 [rowStale])) ∧
    divNfl QW10 oracleI [rowC10] = [rowC10] := by
  constructor
  · exact C4_idempotence.1 PW10 oracleI [rowStale] rowStale_hex rowStale_hpair
  · exact C4_idempotence.2.1 QW10 oracleI [rowC10] rowC10_hexN rowC10_hpairN

/-- **C4 counterexample**: a compliant batch (every realized exposure within
both targets, so the pass does not touch any slot, for any seed) whose stored
totals are stale.  `diversify_lineups_wide` returns a CHANGED batch: the
final recompute pass overwrites `TotalSalary` 0 with the authoritative 100,
refuting "running the diversification pass returns a batch identical to its
input". -/
theorem C4_counterexample :
    (∀ k, ((cnt (wideInit PW10 [rowStale]).exposure k : Int) : ℚ) /
      ((List.length ([rowStale] : List Row) : Nat) : ℚ) ≤ PW10.maxExposure) ∧
    (∀ p, ((cnt (wideInit PW10 [rowStale]).pairExp p : Int) : ℚ) /
      ((List.length ([rowStale] : List Row) : Nat) : ℚ) ≤ PW10.maxPairExposure) ∧
    divWide PW10 oracleI [rowStale] ≠ [rowStale] := by
  refine ⟨rowStale_hex, rowStale_hpair, ?_⟩
  rw [divWide_compliant_eq PW10 oracleI [rowStale] rowStale_hex rowStale_hpair]
  intro hcontra
  have hkeys : rowKeys (slotColsOf PW10 [rowStale]) rowStale = ["a"] := by decide
  have h1 := congrArg (fun l => (l.headD (⟨[], 0, 0⟩ : Row)).totalSalary) hcontra
  simp only [List.map_cons, List.map_nil, List.headD_cons] at h1
  rw [show (recomputeTotals PW10.tbl (slotColsOf PW10 [rowStale]) rowStale).totalSalary =
    ((rowKeys (slotColsOf PW10 [rowStale]) rowStale).map (infoSalary PW10.tbl)).sum from rfl,
    hkeys] at h1
  simp [infoSalary, PW10, tblC10, List.lookup, infoA10, rowStale] at h1

/-- Witness for C10: the invariants applied to a concrete one-lineup batch
and concrete states. -/
theorem C10_ledger_nonneg_witness :
    (LedgerNonneg (divWideFull PW10 oracleI [rowC10]).exposure ∧
      LedgerNonneg (divWideFull PW10 oracleI [rowC10]).pairExp) ∧
    StateNonneg (processSlot PW10 1 ["QB"] oracleI 0
      (wideInit PW10 [rowC10], rowKeys ["QB"] rowC10, 0) "QB").1 ∧
    LedgerNonneg (tempOf [(("a", "b"), 1)] ["a", "b"] "a" "c") ∧
    StateNonneg (processColNfl QW10 1 ["QB"] oracleI 0
      (nflInit [rowC10], ["a"], 0) "QB").1 := by
  refine ⟨C10_ledger_nonneg.1 PW10 oracleI [rowC10], ?_, ?_, ?_⟩
  · exact C10_ledger_nonneg.2.2.1 PW10 1 ["QB"] oracleI 0
      (wideInit PW10 [rowC10], rowKeys ["QB"] rowC10, 0) "QB" (wideInit_nonneg PW10 [rowC10])
  · refine C10_ledger_nonneg.2.2.2.1 [(("a", "b"), 1)] ["a", "b"] "a" "c" ?_
    intro e he
    simp only [List.mem_singleton] at he
    subst he
    decide
  · exact C10_ledger_nonneg.2.2.2.2 QW10 1 ["QB"] oracleI 0
      (nflInit [rowC10], ["a"], 0) "QB" (nflInit_nonneg [rowC10])

/-! ### Cell-update lemmas and the acceptance permutation, used for C1. -/

theorem lookup_setCell_map (cells : List (String × String)) (s v c : String) (h : c ≠ s) :
    (cells.map (fun e => if e.1 = s then (e.1, v) else e)).lookup c = cells.lookup c := by
  induction cells with
  | nil => rfl
  | cons e l ih =>
    simp only [List.map_cons]
    by_cases he : e.1 = s
    · rw [show (if e.1 = s then (e.1, v) else e) = (e.1, v) from if_pos he]
      have hbeq : (c == e.1) = false := beq_eq_false_iff_ne.mpr (fun hc => h (hc.trans he))
      simp only [List.lookup, hbeq]
      exact ih
    · rw [show (if e.1 = s then (e.1, v) else e) = e from if_neg he]
      by_cases hc : (c == e.1) = true
      · rcases e with ⟨k, w⟩
        simp only [List.lookup, hc]
      · rcases e with ⟨k, w⟩
        simp only [List.lookup] at hc ⊢
        rw [Bool.not_eq_true] at hc
        simp only [hc]
        exact ih

theorem lookup_setCell_self (cells : List (String × String)) (s v : String)
    (h : (cells.lookup s).isSome = true) :
    (cells.map (fun e => if e.1 = s then (e.1, v) else e)).lookup s = some v := by
  induction cells with
  | nil => simp [List.lookup] at h
  | cons e l ih =>
    simp only [List.map_cons]
    by_cases he : e.1 = s
    · rw [show (if e.1 = s then (e.1, v) else e) = (e.1, v) from if_pos he]
      have hbeq : (s == e.1) = true := by
        rw [he]
        exact beq_self_eq_true s
      simp only [List.lookup, hbeq]
    · rw [show (if e.1 = s then (e.1, v) else e) = e from if_neg he]
      have hbeq : (s == e.1) = false := beq_eq_false_iff_ne.mpr (Ne.symm he)
      rcases e with ⟨k, w⟩
      simp only [List.lookup, hbeq] at h ⊢
      exact ih h

theorem getCell_setCell_ne (r : Row) (s v c : String) (h : c ≠ s) :
    getCell (setCell r s v) c = getCell r c := by
  unfold getCell setCell
  dsimp only
  rw [lookup_setCell_map r.cells s v c h]

theorem lookup_isSome_of_strip (r : Row) (s : String) (h : ¬ strStrip (getCell r s) = "") :
    (r.cells.lookup s).isSome = true := by
  by_contra hs
  have hnone : r.cells.lookup s = none := Option.not_isSome_iff_eq_none.mp (by simpa using hs)
  rw [getCell, hnone] at h
  exact h rfl

theorem getCell_setCell_self (r : Row) (s v : String)
    (h : ¬ strStrip (getCell r s) = "") : getCell (setCell r s v) s = v := by
  unfold getCell setCell
  dsimp only
  rw [lookup_setCell_self r.cells s v (lookup_isSome_of_strip r s h)]
  rfl

theorem keyAt_setCell_ne (r : Row) (s v c : String) (h : c ≠ s) :
    keyAt (setCell r s v) c = keyAt r c := by
  unfold keyAt
  rw [getCell_setCell_ne r s v c h]

/-- Writing a fresh non-empty cell into slot `s` replaces exactly the middle
entry of the occupant-name list. -/
theorem rowKeys_setCell_split (slotCols : List String) (row : Row) (s v : String)
    (hs : s ∈ slotCols) (hscnd : slotCols.Nodup)
    (hcell : ¬ strStrip (getCell row s) = "") (hv : ¬ strStrip v = "") :
    ∃ A B, rowKeys slotCols row = A ++ nameKeyFromCell (getCell row s) :: B ∧
      rowKeys slotCols (setCell row s v) = A ++ nameKeyFromCell v :: B := by
  obtain ⟨l1, l2, rfl⟩ := List.append_of_mem hs
  have hmid := List.nodup_middle.mp hscnd
  have hnin : s ∉ l1 ++ l2 := (List.nodup_cons.mp hmid).1
  have h1 : s ∉ l1 := fun hm => hnin (List.mem_append.mpr (Or.inl hm))
  have h2 : s ∉ l2 := fun hm => hnin (List.mem_append.mpr (Or.inr hm))
  refine ⟨l1.filterMap (keyAt row), l2.filterMap (keyAt row), ?_, ?_⟩
  · unfold rowKeys keyAt
    rw [List.filterMap_append, List.filterMap_cons, if_neg hcell]
  · have hgs : getCell (setCell row s v) s = v := getCell_setCell_self row s v hcell
    unfold rowKeys
    rw [List.filterMap_append, List.filterMap_cons]
    rw [List.filterMap_congr
      (fun c hc => keyAt_setCell_ne row s v c (fun he => h1 (he ▸ hc)))]
    rw [List.filterMap_congr (l := l2)
      (fun c hc => keyAt_setCell_ne row s v c (fun he => h2 (he ▸ hc)))]
    rw [show keyAt (setCell row s v) s = some (nameKeyFromCell v) from by
      unfold keyAt
      rw [hgs, if_neg hv]]

/-- The substituted name list is a permutation of the simulated player list,
and stays duplicate-free. -/
theorem simOf_perm (A B : List String) (orig cand : String)
    (hnd : (A ++ orig :: B).Nodup) (hcand : cand ∉ A ++ orig :: B) :
    (A ++ cand :: B).Perm (simOf (A ++ orig :: B) orig cand) ∧ (A ++ cand :: B).Nodup := by
  have hmid := List.nodup_middle.mp hnd
  have horig : orig ∉ A ++ B := (List.nodup_cons.mp hmid).1
  have hAB : (A ++ B).Nodup := (List.nodup_cons.mp hmid).2
  have hfA : A.filter (fun n => n ≠ orig) = A := by
    rw [List.filter_eq_self]
    intro a ha
    rw [decide_eq_true_eq]
    intro he
    exact horig (List.mem_append.mpr (Or.inl (he ▸ ha)))
  have hfB : B.filter (fun n => n ≠ orig) = B := by
    rw [List.filter_eq_self]
    intro a ha
    rw [decide_eq_true_eq]
    intro he
    exact horig (List.mem_append.mpr (Or.inr (he ▸ ha)))
  have hsim : simOf (A ++ orig :: B) orig cand = (A ++ B) ++ [cand] := by
    unfold simOf
    rw [List.filter_append, List.filter_cons, if_neg (by simp), hfA, hfB]
  constructor
  · rw [hsim, List.append_assoc]
    exact List.Perm.append_left A (List.perm_append_singleton cand B).symm
  · rw [List.nodup_middle, List.nodup_cons]
    refine ⟨?_, hAB⟩
    intro hc
    rcases List.mem_append.mp hc with hm | hm
    · exact hcand (List.mem_append.mpr (Or.inl hm))
    · exact hcand (List.mem_append.mpr (Or.inr (List.mem_cons_of_mem _ hm)))

/-- An accepted candidate was drawn from the candidate list, is not already in
the lineup, passed the salary window, and the result is the acceptance block
applied to it. -/
theorem tryCandidates_accept_shape (P : DivParams) (N : Nat) (sc : List String) (row : Row)
    (e : List (String × Int)) (pe : List ((String × String) × Int))
    (names : List String) (orig s : String) (cands : List String) (r : AcceptResult)
    (h : tryCandidates P N sc row e pe names orig s cands = some r) :
    ∃ cand, cand ∈ cands ∧ names.contains cand = false ∧
      ¬ (simSalaryOf P.tbl names orig cand < P.salaryMin ∨
         simSalaryOf P.tbl names orig cand > P.salaryCap) ∧
      r = acceptWide P sc row e pe names orig cand s := by
  induction cands with
  | nil => simp [tryCandidates] at h
  | cons cand rest ih =>
    rw [tryCandidates] at h
    split at h
    · obtain ⟨c, hc, h2, h3, h4⟩ := ih h
      exact ⟨c, List.mem_cons_of_mem _ hc, h2, h3, h4⟩
    · split at h
      · obtain ⟨c, hc, h2, h3, h4⟩ := ih h
        exact ⟨c, List.mem_cons_of_mem _ hc, h2, h3, h4⟩
      · split at h
        · obtain ⟨c, hc, h2, h3, h4⟩ := ih h
          exact ⟨c, List.mem_cons_of_mem _ hc, h2, h3, h4⟩
        · split at h
          · obtain ⟨c, hc, h2, h3, h4⟩ := ih h
            exact ⟨c, List.mem_cons_of_mem _ hc, h2, h3, h4⟩
          · split at h
            · obtain ⟨c, hc, h2, h3, h4⟩ := ih h
              exact ⟨c, List.mem_cons_of_mem _ hc, h2, h3, h4⟩
            · rename_i hne hmem hexp hsal hpair
              rw [Option.some.injEq] at h
              exact ⟨cand, List.mem_cons_self _ _, Bool.eq_false_iff.mpr hmem, hsal, h.symm⟩

/-! ### The cells-or-window invariant of the wide pass (claim C1). -/

theorem getD_set_self' {α : Type} (l : List α) (i : Nat) (x d : α) (h : i < l.length) :
    (l.set i x).getD i d = x := by
  rw [List.getD_eq_getElem?_getD, List.getElem?_set_self h]
  rfl

theorem getD_set_ne' {α : Type} (l : List α) (i j : Nat) (x d : α) (h : i ≠ j) :
    (l.set i x).getD j d = l.getD j d := by
  rw [List.getD_eq_getElem?_getD, List.getElem?_set_ne h, ← List.getD_eq_getElem?_getD]

theorem rowKeys_default (sc : List String) : rowKeys sc (⟨[], 0, 0⟩ : Row) = [] := by
  rw [rowKeys, List.filterMap_eq_nil_iff]
  intro c hc
  rfl

/-- The row's authoritative salary: the table values summed over its current
occupant names. -/
def authSalary (P : DivParams) (sc : List String) (r : Row) : ℚ :=
  ((rowKeys sc r).map (infoSalary P.tbl)).sum

/-- Row-level invariant of the wide pass: either the slot cells are untouched,
or the row's authoritative salary lies inside the configured window; occupant
names stay duplicate-free throughout. -/
def RowOk (P : DivParams) (sc : List String) (r0 r : Row) : Prop :=
  (r.cells = r0.cells ∨
    (P.salaryMin ≤ authSalary P sc r ∧ authSalary P sc r ≤ P.salaryCap)) ∧
  (rowKeys sc r).Nodup

/-- State-level invariant. -/
def StInv (P : DivParams) (sc : List String) (rows0 : List Row) (st : DivState) : Prop :=
  st.rows.length = rows0.length ∧
  ∀ i, RowOk P sc (rows0.getD i ⟨[], 0, 0⟩) (st.rows.getD i ⟨[], 0, 0⟩)

/-- Well-formedness of the player table as `build_player_info_from_salary_df`
produces it: every key round-trips through the replacement cell built for it,
and that cell is non-empty. -/
def WfTable (tbl : List (String × PlayerInfo)) : Prop :=
  ∀ e ∈ tbl, nameKeyFromCell (mkCell tbl e.1) = e.1 ∧ ¬ strStrip (mkCell tbl e.1) = ""

/-- The oracle's permutation draws return elements of their input, as
`random.sample` and `random.shuffle` do. -/
def OracleSub (oracle : Nat → RDraw) : Prop :=
  ∀ (n : Nat) (l : List String), ∀ x ∈ (oracle n).perm l, x ∈ l

theorem candidatesForSlot_key (tbl : List (String × PlayerInfo)) (slot x : String)
    (hx : x ∈ candidatesForSlot tbl slot) : ∃ e ∈ tbl, e.1 = x := by
  unfold candidatesForSlot at hx
  split at hx
  · simp at hx
  · rw [List.mem_filterMap] at hx
    obtain ⟨e, he, hfe⟩ := hx
    refine ⟨e, he, ?_⟩
    dsimp only at hfe
    split at hfe
    · exact Option.some.inj hfe
    · split at hfe
      · exact Option.some.inj hfe
      · exact absurd hfe (by simp)

theorem processSlot_inv (P : DivParams) (N : Nat) (sc : List String) (oracle : Nat → RDraw)
    (rows0 : List Row) (li : Nat) (s : String) (st : DivState) (names : List String)
    (ridx : Nat)
    (hwf : WfTable P.tbl) (hsub : OracleSub oracle) (hscnd : sc.Nodup) (hs : s ∈ sc)
    (hli : li < rows0.length) (hinv : StInv P sc rows0 st)
    (hnames : names = rowKeys sc (st.rows.getD li ⟨[], 0, 0⟩)) :
    StInv P sc rows0 (processSlot P N sc oracle li (st, names, ridx) s).1 ∧
    (processSlot P N sc oracle li (st, names, ridx) s).2.1 =
      rowKeys sc ((processSlot P N sc oracle li (st, names, ridx) s).1.rows.getD li
        ⟨[], 0, 0⟩) := by
  unfold processSlot
  dsimp only
  split
  · exact ⟨hinv, hnames⟩
  · rename_i hcell
    split
    · exact ⟨hinv, hnames⟩
    · split
      · exact ⟨hinv, hnames⟩
      · split
        · exact ⟨hinv, hnames⟩
        · rename_i r hr
          obtain ⟨cand, hcomem, hnc, hsal, rfl⟩ := tryCandidates_accept_shape P N sc
            (st.rows.getD li ⟨[], 0, 0⟩) st.exposure st.pairExp names
            (nameKeyFromCell (getCell (st.rows.getD li ⟨[], 0, 0⟩) s)) s _ r hr
          obtain ⟨e, he, heq⟩ := candidatesForSlot_key P.tbl s cand
            (hsub ridx (candidatesForSlot P.tbl s) cand hcomem)
          obtain ⟨hwk, hwe⟩ := hwf e he
          rw [heq] at hwk hwe
          obtain ⟨A, B, hAB1, hAB2⟩ := rowKeys_setCell_split sc
            (st.rows.getD li ⟨[], 0, 0⟩) s (mkCell P.tbl cand) hs hscnd hcell hwe
          rw [hwk] at hAB2
          have hnd2 : (A ++ nameKeyFromCell (getCell (st.rows.getD li ⟨[], 0, 0⟩) s)
              :: B).Nodup := by
            rw [← hAB1]
            exact (hinv.2 li).2
          have hcand2 : cand ∉ A ++ nameKeyFromCell (getCell (st.rows.getD li ⟨[], 0, 0⟩) s)
              :: B := by
            rw [← hAB1, ← hnames]
            simpa using hnc
          obtain ⟨hperm, hnd3⟩ := simOf_perm A B
            (nameKeyFromCell (getCell (st.rows.getD li ⟨[], 0, 0⟩) s)) cand hnd2 hcand2
          have hperm2 : (A ++ cand :: B).Perm (simOf names
              (nameKeyFromCell (getCell (st.rows.getD li ⟨[], 0, 0⟩) s)) cand) := by
            rw [hnames, hAB1]
            exact hperm
          have hkeys : rowKeys sc (acceptWide P sc (st.rows.getD li ⟨[], 0, 0⟩) st.exposure
              st.pairExp names (nameKeyFromCell (getCell (st.rows.getD li ⟨[], 0, 0⟩) s))
              cand s).row = A ++ cand :: B := hAB2
          have hwin : P.salaryMin ≤ simSalaryOf P.tbl names
                (nameKeyFromCell (getCell (st.rows.getD li ⟨[], 0, 0⟩) s)) cand ∧
              simSalaryOf P.tbl names
                (nameKeyFromCell (getCell (st.rows.getD li ⟨[], 0, 0⟩) s)) cand ≤
                P.salaryCap := by
            push_neg at hsal
            exact hsal
          have hauth : authSalary P sc (acceptWide P sc (st.rows.getD li ⟨[], 0, 0⟩)
              st.exposure st.pairExp names
              (nameKeyFromCell (getCell (st.rows.getD li ⟨[], 0, 0⟩) s)) cand s).row =
              simSalaryOf P.tbl names
                (nameKeyFromCell (getCell (st.rows.getD li ⟨[], 0, 0⟩) s)) cand := by
            unfold authSalary simSalaryOf
            rw [hkeys]
            exact (hperm2.map (infoSalary P.tbl)).sum_eq
          have hlen : li < st.rows.length := by
            rw [hinv.1]
            exact hli
          refine ⟨⟨?_, ?_⟩, ?_⟩
          · dsimp only
            rw [List.length_set]
            exact hinv.1
          · intro i
            dsimp only
            by_cases hi : li = i
            · subst hi
              rw [getD_set_self' _ _ _ _ hlen]
              refine ⟨?_, ?_⟩
              · right
                rw [hauth]
                exact hwin
              · rw [hkeys]
                exact hnd3
            · rw [getD_set_ne' _ _ _ _ _ hi]
              exact hinv.2 i
          · dsimp only
            rw [getD_set_self' _ _ _ _ hlen]
            rfl

theorem processSlots_inv (P : DivParams) (N : Nat) (sc : List String) (oracle : Nat → RDraw)
    (rows0 : List Row) (li : Nat)
    (hwf : WfTable P.tbl) (hsub : OracleSub oracle) (hscnd : sc.Nodup)
    (hli : li < rows0.length) :
    ∀ (order : List String), (∀ x ∈ order, x ∈ sc) →
      ∀ (st : DivState) (names : List String) (ridx : Nat), StInv P sc rows0 st →
        names = rowKeys sc (st.rows.getD li ⟨[], 0, 0⟩) →
        StInv P sc rows0 ((order.foldl (processSlot P N sc oracle li) (st, names, ridx)).1) := by
  intro order
  induction order with
  | nil =>
    intro hord st names ridx h1 h2
    exact h1
  | cons s rest ih =>
    intro hord st names ridx h1 h2
    rw [List.foldl_cons]
    obtain ⟨h1', h2'⟩ := processSlot_inv P N sc oracle rows0 li s st names ridx hwf hsub
      hscnd (hord s (List.mem_cons_self _ _)) hli h1 h2
    exact ih (fun x hx => hord x (List.mem_cons_of_mem _ hx))
      (processSlot P N sc oracle li (st, names, ridx) s).1
      (processSlot P N sc oracle li (st, names, ridx) s).2.1
      (processSlot P N sc oracle li (st, names, ridx) s).2.2 h1' h2'

theorem processLineup_inv (P : DivParams) (N : Nat) (sc : List String) (oracle : Nat → RDraw)
    (rows0 : List Row) (hwf : WfTable P.tbl) (hsub : OracleSub oracle) (hscnd : sc.Nodup)
    (a : DivState × Nat) (li : Nat) (hli : li < rows0.length)
    (h1 : StInv P sc rows0 a.1) :
    StInv P sc rows0 (processLineup P N sc oracle a li).1 := by
  obtain ⟨st, ridx⟩ := a
  unfold processLineup
  dsimp only
  exact processSlots_inv P N sc oracle rows0 li hwf hsub hscnd hli
    ((oracle ridx).perm sc) (fun x hx => hsub ridx sc x hx) st _ (ridx + 1) h1 rfl

theorem foldl_lineups_inv (P : DivParams) (N : Nat) (sc : List String) (oracle : Nat → RDraw)
    (rows0 : List Row) (hwf : WfTable P.tbl) (hsub : OracleSub oracle) (hscnd : sc.Nodup) :
    ∀ (lis : List Nat), (∀ li ∈ lis, li < rows0.length) →
      ∀ (a : DivState × Nat), StInv P sc rows0 a.1 →
        StInv P sc rows0 ((lis.foldl (processLineup P N sc oracle) a)).1 := by
  intro lis
  induction lis with
  | nil =>
    intro _ a h
    exact h
  | cons li rest ih =>
    intro hall a h
    rw [List.foldl_cons]
    exact ih (fun x hx => hall x (List.mem_cons_of_mem _ hx)) _
      (processLineup_inv P N sc oracle rows0 hwf hsub hscnd a li
        (hall li (List.mem_cons_self _ _)) h)

theorem wideInit_inv (P : DivParams) (rows0 : List Row)
    (hnodup : ∀ r ∈ rows0, (rowKeys (slotColsOf P rows0) r).Nodup) :
    StInv P (slotColsOf P rows0) rows0 (wideInit P rows0) := by
  refine ⟨rfl, ?_⟩
  intro i
  show RowOk P (slotColsOf P rows0) (rows0.getD i ⟨[], 0, 0⟩) (rows0.getD i ⟨[], 0, 0⟩)
  by_cases hi : i < rows0.length
  · refine ⟨Or.inl rfl, ?_⟩
    rw [List.getD_eq_getElem rows0 _ hi]
    exact hnodup _ (List.getElem_mem hi)
  · rw [List.getD_eq_default rows0 _ (by omega)]
    refine ⟨Or.inl rfl, ?_⟩
    rw [rowKeys_default]
    exact List.nodup_nil

/-- The cells-or-window property of the wide pass: every returned row either
has exactly its input slot cells, or carries an authoritative salary inside
the configured window (established by the last accepted substitution). -/
theorem divWide_window (P : DivParams) (oracle : Nat → RDraw) (rows0 : List Row)
    (hwf : WfTable P.tbl) (hsub : OracleSub oracle)
    (hscnd : (slotColsOf P rows0).Nodup)
    (hnodup : ∀ r ∈ rows0, (rowKeys (slotColsOf P rows0) r).Nodup) :
    ∀ i, i < rows0.length →
      ((divWide P oracle rows0).getD i ⟨[], 0, 0⟩).cells =
        (rows0.getD i ⟨[], 0, 0⟩).cells ∨
      (P.salaryMin ≤ authSalary P (slotColsOf P rows0)
          ((divWide P oracle rows0).getD i ⟨[], 0, 0⟩) ∧
        authSalary P (slotColsOf P rows0) ((divWide P oracle rows0).getD i ⟨[], 0, 0⟩) ≤
          P.salaryCap) := by
  intro i hi
  unfold divWide divWideFull
  split
  · rename_i h0
    omega
  · dsimp only
    have hfin := foldl_lineups_inv P rows0.length (slotColsOf P rows0) oracle rows0 hwf hsub
      hscnd (List.range rows0.length) (fun li hl => List.mem_range.mp hl)
      (wideInit P rows0, 0) (wideInit_inv P rows0 hnodup)
    have hd : recomputeTotals P.tbl (slotColsOf P rows0) ⟨[], 0, 0⟩ = ⟨[], 0, 0⟩ := by
      unfold recomputeTotals
      rw [rowKeys_default]
      rfl
    have hmap : ((((List.range rows0.length).foldl
          (processLineup P rows0.length (slotColsOf P rows0) oracle)
          (wideInit P rows0, 0)).1.rows.map
            (recomputeTotals P.tbl (slotColsOf P rows0))).getD i ⟨[], 0, 0⟩) =
        recomputeTotals P.tbl (slotColsOf P rows0)
          (((List.range rows0.length).foldl
            (processLineup P rows0.length (slotColsOf P rows0) oracle)
            (wideInit P rows0, 0)).1.rows.getD i ⟨[], 0, 0⟩) := by
      conv_lhs => rw [← hd]
      exact List.getD_map _ _ _
    rw [hmap]
    rcases (hfin.2 i).1 with hcl | hwin
    · exact Or.inl hcl
    · exact Or.inr hwin

/-! ### No-drift (claim C5). -/

/-- **C5**: no drift.  (1) Whenever the candidate loop of
`diversify_lineups_wide` accepts a substitution, the mutated row's stored
`TotalSalary` and `ProjectedPoints` equal the sums of the authoritative
per-player salary / fppg values over the row's current occupant names,
recomputed fresh from the table (lines 291–295).  (2) Every row of the frame
the pass returns satisfies the same equations (the final pass, lines
302–308, re-derives both totals from the table). -/
theorem C5_no_drift :
    (∀ (P : DivParams) (N : Nat) (slotCols : List String) (row : Row)
        (exposure : List (String × Int)) (pairExp : List ((String × String) × Int))
        (currentNames : List String) (original s : String) (cands : List String)
        (r : AcceptResult),
      tryCandidates P N slotCols row exposure pairExp currentNames original s cands
        = some r →
      r.row.totalSalary = ((rowKeys slotCols r.row).map (infoSalary P.tbl)).sum ∧
      r.row.projectedPoints = ((rowKeys slotCols r.row).map (infoFppg P.tbl)).sum)
    ∧
    (∀ (P : DivParams) (oracle : Nat → RDraw) (rows0 : List Row) (r : Row),
      r ∈ divWide P oracle rows0 →
      r.totalSalary = ((rowKeys (slotColsOf P rows0) r).map (infoSalary P.tbl)).sum ∧
      r.projectedPoints = ((rowKeys (slotColsOf P rows0) r).map (infoFppg P.tbl)).sum) := by
  constructor
  · intro P N slotCols row exposure pairExp currentNames original s cands r h
    induction cands with
    | nil => simp [tryCandidates] at h
    | cons cand rest ih =>
      rw [tryCandidates] at h
      split at h
      · exact ih h
      · split at h
        · exact ih h
        · split at h
          · exact ih h
          · split at h
            · exact ih h
            · split at h
              · exact ih h
              · rw [Option.some.injEq] at h
                subst h
                exact ⟨rfl, rfl⟩
  · intro P oracle rows0 r hr
    unfold divWide divWideFull at hr
    split at hr
    · rename_i h0
      rw [List.length_eq_zero.mp h0] at hr
      simp at hr
    · dsimp only at hr
      rw [List.mem_map] at hr
      obtain ⟨r', hr', rfl⟩ := hr
      exact ⟨rfl, rfl⟩

def infoC5c : PlayerInfo :=
  { display := "c", pid := some "2", positions := ["QB"], team := "BBB",
    salary := 100, fppg := 9 }

def PAcc : DivParams :=
  { tbl := [("a", infoA10), ("c", infoC5c)], slotOrder := ["QB"], maxExposure := 1,
    maxPairExposure := 1, randomness := 1, salaryCap := 200, salaryMin := 0 }

def rowAcc : Row := { cells := [("QB", "a(1)")], totalSalary := 100, projectedPoints := 10 }

/-- A concrete acceptance: in a 2-lineup batch where `a` is over-exposed, the
candidate `c` survives every check and is substituted into the QB slot. -/
theorem accept_c_for_a :
    tryCandidates PAcc 2 ["QB"] rowAcc [("a", 2)] [] ["a"] "a" "QB" ["c"] =
      some (acceptWide PAcc ["QB"] rowAcc [("a", 2)] [] ["a"] "a" "c" "QB") := by
  rw [tryCandidates]
  rw [if_neg (by decide : ¬ ("c" = "a"))]
  rw [if_neg (by decide : ¬ ((["a"] : List String).contains "c" = true))]
  rw [if_neg ?hexp]
  case hexp =>
    have hc : cnt [("a", (2 : Int))] "c" = 0 := by decide
    rw [hc]
    norm_num [PAcc]
  rw [if_neg ?hsal]
  case hsal =>
    have hs : simSalaryOf PAcc.tbl ["a"] "a" "c" = (100 : ℚ) + 0 := rfl
    rw [hs]
    norm_num [PAcc]
  rw [if_neg ?hpair]
  case hpair =>
    have ht : tempOf [] ["a"] "a" "c" = [] := by decide
    rw [ht]
    simp

/-- Witness for C5: the acceptance part at the concrete substitution above,
and the whole-pass part at a concrete diversified batch. -/
theorem C5_no_drift_witness :
    ((acceptWide PAcc ["QB"] rowAcc [("a", 2)] [] ["a"] "a" "c" "QB").row.totalSalary =
      ((rowKeys ["QB"] (acceptWide PAcc ["QB"] rowAcc [("a", 2)] [] ["a"] "a" "c" "QB").row).map
        (infoSalary PAcc.tbl)).sum) ∧
    ((recomputeTotals PW10.tbl (slotColsOf PW10 [rowStale]) rowStale).totalSalary =
      ((rowKeys (slotColsOf PW10 [rowStale])
          (recomputeTotals PW10.tbl (slotColsOf PW10 [rowStale]) rowStale)).map
        (infoSalary PW10.tbl)).sum) := by
  constructor
  · exact (C5_no_drift.1 PAcc 2 ["QB"] rowAcc [("a", 2)] [] ["a"] "a" "QB" ["c"] _
      accept_c_for_a).1
  · have hm : recomputeTotals PW10.tbl (slotColsOf PW10 [rowStale]) rowStale ∈
        divWide PW10 oracleI [rowStale] := by
      rw [divWide_compliant_eq PW10 oracleI [rowStale] rowStale_hex rowStale_hpair]
      simp
    exact (C5_no_drift.2 PW10 oracleI [rowStale] _ hm).1

/-! ### Lineup invariants (claim C1). -/

/-- **C1 (amended)**: (generation) every solved lineup of
`SleekOptimizer.optimize` has exactly `total_players` players, a total salary
at most the budget — the generator enforces NO salary floor — exact
per-position counts (the generator has no slot notion, only position counts),
pairwise distinct player ids, and, when `max_from_team` is set and non-zero,
at most that many players from every team.  (diversification) the wide pass
only guarantees the salary window `salary_min ≤ Σ ≤ salary_cap` for rows whose
slot cells it changed: every returned row either keeps its input cells
verbatim — preserving any pre-existing violation — or has an authoritative
salary inside the window. -/
theorem C1_lineup_invariants :
    (∀ (settings : Settings) (df : List Player) (ctx : GenContext) (chosen : List String),
      (df.map (fun p => p.id)).Nodup → baseConstraints settings df ctx chosen →
        (selectedPlayers df chosen).length = settings.total_players ∧
        ((selectedPlayers df chosen).map (fun p => p.salary)).sum ≤ settings.budget ∧
        (∀ pc ∈ settings.positions,
          (selectedPlayers df chosen).countP (fun p => p.positions.contains pc.1) = pc.2) ∧
        ((selectedPlayers df chosen).map (fun p => p.id)).Nodup ∧
        (∀ m, settings.max_from_team = some m → m ≠ 0 →
          ∀ t, (selectedPlayers df chosen).countP (fun p => p.team = t) ≤ m))
    ∧
    (∀ (P : DivParams) (oracle : Nat → RDraw) (rows0 : List Row),
      WfTable P.tbl → OracleSub oracle → (slotColsOf P rows0).Nodup →
      (∀ r ∈ rows0, (rowKeys (slotColsOf P rows0) r).Nodup) →
      ∀ i, i < rows0.length →
        ((divWide P oracle rows0).getD i ⟨[], 0, 0⟩).cells =
          (rows0.getD i ⟨[], 0, 0⟩).cells ∨
        (P.salaryMin ≤ authSalary P (slotColsOf P rows0)
            ((divWide P oracle rows0).getD i ⟨[], 0, 0⟩) ∧
          authSalary P (slotColsOf P rows0) ((divWide P oracle rows0).getD i ⟨[], 0, 0⟩) ≤
            P.salaryCap)) := by
  constructor
  · intro settings df ctx chosen hnd hbase
    refine ⟨selectedPlayers_length settings df ctx chosen hnd hbase, ?_, ?_,
      selectedPlayers_nodup_ids df chosen hnd, ?_⟩
    · rw [selectedPlayers_salary]
      exact hbase.2.1
    · intro pc hpc
      rw [selectedPlayers_countP]
      exact hbase.2.2.1 pc hpc
    · intro m hm hm0 t
      rw [selectedPlayers_countP]
      by_cases ht : t ∈ (df.map (fun p => p.team)).dedup
      · have hcap := hbase.2.2.2.1
        unfold teamCapConstraint at hcap
        rw [hm] at hcap
        exact hcap hm0 t ht
      · have hz : (df.filter (fun p => p.team = t)) = [] := by
          rw [List.filter_eq_nil_iff]
          intro a ha hat
          exact ht (List.mem_dedup.mpr (List.mem_map.mpr ⟨a, ha, by simpa using hat⟩))
        rw [hz]
        simp
  · intro P oracle rows0 hwf hsub hscnd hnodup
    exact divWide_window P oracle rows0 hwf hsub hscnd hnodup

/-- `PW10` with the UI-default salary window 49500–50000: the authoritative
salary of the only available lineup (100) is far below the floor. -/
def PWfloor : DivParams :=
  { tbl := tblC10, slotOrder := ["QB"], maxExposure := 1, maxPairExposure := 1,
    randomness := 0, salaryCap := 50000, salaryMin := 49500 }

theorem floor_hex :
    ∀ k, ((cnt (wideInit PWfloor [rowStale]).exposure k : Int) : ℚ) /
      ((List.length ([rowStale] : List Row) : Nat) : ℚ) ≤ PWfloor.maxExposure := by
  intro k
  have he : (wideInit PWfloor [rowStale]).exposure = [("a", 1)] := by decide
  rw [he]
  by_cases hk : (k == "a") = true <;>
    simp [cnt, List.lookup, hk, PWfloor]

theorem floor_hpair :
    ∀ p, ((cnt (wideInit PWfloor [rowStale]).pairExp p : Int) : ℚ) /
      ((List.length ([rowStale] : List Row) : Nat) : ℚ) ≤ PWfloor.maxPairExposure := by
  intro p
  have he : (wideInit PWfloor [rowStale]).pairExp = [] := by decide
  rw [he]
  simp [cnt, List.lookup, PWfloor]

theorem wfTblC10 : WfTable tblC10 := by
  intro e he
  rw [show tblC10 = [("a", infoA10)] from rfl, List.mem_singleton] at he
  subst he
  refine ⟨?_, ?_⟩
  · rfl
  · decide

/-- **C1 counterexample**: with the UI-default window 49500–50000, a
one-lineup batch whose only row is untouched (the batch is compliant, so no
substitution is attempted for any seed) comes back with an authoritative
salary of 100, far below the floor — the diversification pass does NOT make
every returned lineup satisfy `salary_floor ≤ Σ salary`. -/
theorem C1_counterexample :
    divWide PWfloor oracleI [rowStale] =
      [recomputeTotals PWfloor.tbl (slotColsOf PWfloor [rowStale]) rowStale] ∧
    authSalary PWfloor (slotColsOf PWfloor [rowStale])
      ((divWide PWfloor oracleI [rowStale]).getD 0 ⟨[], 0, 0⟩) < PWfloor.salaryMin := by
  have heq : divWide PWfloor oracleI [rowStale] =
      [recomputeTotals PWfloor.tbl (slotColsOf PWfloor [rowStale]) rowStale] := by
    rw [divWide_compliant_eq PWfloor oracleI [rowStale] floor_hex floor_hpair]
    rfl
  refine ⟨heq, ?_⟩
  rw [heq]
  show ((rowKeys (slotColsOf PWfloor [rowStale]) rowStale).map
    (infoSalary PWfloor.tbl)).sum < PWfloor.salaryMin
  have hkeys : rowKeys (slotColsOf PWfloor [rowStale]) rowStale = ["a"] := by decide
  rw [hkeys]
  have hs : infoSalary PWfloor.tbl "a" = 100 := by
    simp [infoSalary, PWfloor, tblC10, List.lookup, infoA10]
  rw [List.map_singleton, hs, List.sum_singleton]
  norm_num [PWfloor]

/-- Witness for C1: the generation conclusions at a concrete solved selection,
and the diversification window disjunction at a concrete one-lineup batch. -/
theorem C1_lineup_invariants_witness :
    ((selectedPlayers poolW chosenW).length = settingsW.total_players ∧
      ((selectedPlayers poolW chosenW).map (fun p => p.salary)).sum ≤ settingsW.budget ∧
      (∀ pc ∈ settingsW.positions,
        (selectedPlayers poolW chosenW).countP (fun p => p.positions.contains pc.1) = pc.2) ∧
      ((selectedPlayers poolW chosenW).map (fun p => p.id)).Nodup ∧
      (∀ m, settingsW.max_from_team = some m → m ≠ 0 →
        ∀ t, (selectedPlayers poolW chosenW).countP (fun p => p.team = t) ≤ m)) ∧
    (((divWide PW10 oracleI [rowStale]).getD 0 ⟨[], 0, 0⟩).cells =
        (([rowStale] : List Row).getD 0 ⟨[], 0, 0⟩).cells ∨
      (PW10.salaryMin ≤ authSalary PW10 (slotColsOf PW10 [rowStale])
          ((divWide PW10 oracleI [rowStale]).getD 0 ⟨[], 0, 0⟩) ∧
        authSalary PW10 (slotColsOf PW10 [rowStale])
          ((divWide PW10 oracleI [rowStale]).getD 0 ⟨[], 0, 0⟩) ≤ PW10.salaryCap)) := by
  constructor
  · refine C1_lineup_invariants.1 settingsW poolW (initContext poolW) chosenW (by decide)
      ⟨by decide, ?_, by decide, by decide, by decide⟩
    show (poolW.map (fun p => if chosenW.contains p.id then p.salary else 0)).sum ≤
      settingsW.budget
    simp +decide [poolW, chosenW, mkP, settingsW]
    norm_num
  · exact C1_lineup_invariants.2 PW10 oracleI [rowStale] wfTblC10
      (fun n l x hx => hx) (by decide) (by decide) 0 (by decide)

end Div

end DFS
